import Mathlib

/-! bp5-binmode-fala: header parser and streaming capture handler

A shallow embedding of `parse_header` (api.c) and `bp5_binmode_fala_receive_data`
(protocol.c) of the libsigrok driver for the Bus Pirate 5 logic analyser, and
theorems about them.

Conventions of the embedding.

* A `const char *` is a `List Char`; the end of the list reads as the terminating
  NUL, and an explicit NUL character in the list terminates the string as well.
* Machine integers are `Nat` or `Int` with the reductions of an LP64 platform with
  two's-complement conversions (32-bit `int`, 64-bit `long` and `size_t`).
* The handler is a function from the device context and the results of the calls it
  makes into its environment (serial read, allocation, serial write) to the new
  device context, its return value and the list of effects it performed, in order.
-/

namespace Fala

/-! ## C library -/

/-- The terminating character of a C string. -/
def NUL : Char := Char.ofNat 0

/-- The character a `const char *` points at; past the end of the list it is NUL. -/
def deref (s : List Char) : Char := s.headD NUL

/-- The characters of a C string: everything before the first NUL. -/
def cstr (s : List Char) : List Char := s.takeWhile (fun c => c != NUL)

/-- `strncmp(s1, s2, n)`: zero when the first `n` characters agree (or both strings end
before that), otherwise the difference of the first two characters that differ. -/
def strncmp : List Char → List Char → Nat → Int
  | _, _, 0 => 0
  | s1, s2, n + 1 =>
    if deref s1 ≠ deref s2 then (deref s1).toNat - (deref s2).toNat
    else if deref s1 = NUL then 0
    else strncmp s1.tail s2.tail n

/-- `strchr(s, c)` for a character `c` other than NUL: the suffix of `s` that starts at
the first `c`, or `none` (the null pointer) when the string ends first. -/
def strchr : List Char → Char → Option (List Char)
  | [], _ => none
  | x :: xs, c =>
    if x = c then some (x :: xs)
    else if x = NUL then none
    else strchr xs c

/-- `isspace` in the C locale. -/
def isspace (c : Char) : Bool := c.toNat = 32 || (9 ≤ c.toNat && c.toNat ≤ 13)

/-- `isdigit`. -/
def isdigit (c : Char) : Bool := 48 ≤ c.toNat && c.toNat ≤ 57

/-- The value of the longest prefix of decimal digits, accumulated onto `acc`. -/
def digits_value : List Char → Nat → Nat
  | [], acc => acc
  | c :: cs, acc => if isdigit c then digits_value cs (acc * 10 + (c.toNat - 48)) else acc

/-- Largest `long` (64 bits). -/
def LONG_MAX : Int := 2 ^ 63 - 1

/-- Smallest `long` (64 bits). -/
def LONG_MIN : Int := -(2 ^ 63)

/-- `strtol(s, NULL, 10)`: skips white space, reads an optional sign and the longest
run of decimal digits, and saturates at the range of `long`. -/
def strtol (s : List Char) : Int :=
  let t := s.dropWhile isspace
  if deref t = '-' then max LONG_MIN (-(digits_value t.tail 0 : Int))
  else if deref t = '+' then min LONG_MAX (digits_value t.tail 0 : Int)
  else min LONG_MAX (digits_value t 0 : Int)

/-- Conversion of an integer value to `int` (32 bits, two's complement). -/
def to_int (v : Int) : Int := (v + 2 ^ 31) % 2 ^ 32 - 2 ^ 31

/-- Conversion of an integer value to `uint32_t`. -/
def to_uint32 (v : Int) : Nat := (v % 2 ^ 32).toNat

/-- Conversion of an integer value to `uint64_t` (also `size_t`). -/
def to_uint64 (v : Int) : Nat := (v % 2 ^ 64).toNat

/-- `atoi(s)`, which the C library defines as `(int) strtol(s, NULL, 10)`. -/
def atoi (s : List Char) : Int := to_int (strtol s)

/-! ## protocol.h -/

/-- The `fala_header` record of protocol.h. `edge_trigger` is a `gboolean` that only
ever holds TRUE or FALSE. -/
structure fala_header where
  n_channels : Nat
  trigger_channel_mask : Nat
  trigger_mask : Nat
  edge_trigger : Bool
  sample_rate : Nat
  sample_count : Nat
  before_trigger_sample_count : Nat
deriving DecidableEq, Repr

/-! ## api.c: the header parser -/

/-- `next_field(&buf)`: moves `buf` just past the next `;`. Returns the result and the
new value of `buf` (unchanged on failure). -/
def next_field (buf : List Char) : Bool × List Char :=
  match strchr buf ';' with
  | none => (false, buf)
  | some f1 => (true, f1.tail)

/-- `parse_header(buf, hd)`: returns the result and the content of `*hd` after the
call; `hd` is the content of `*hd` before the call. -/
def parse_header (buf : List Char) (hd : fala_header) : Bool × fala_header :=
  if strncmp buf "$FALADATA".toList 9 ≠ 0 then (false, hd)
  else
    let buf := buf.drop 9
    match next_field buf with
    | (false, _) => (false, hd)
    | (true, buf) =>
      let hd := { hd with n_channels := to_uint32 (atoi buf) }
      match next_field buf with
      | (false, _) => (false, hd)
      | (true, buf) =>
        let hd := { hd with trigger_channel_mask := to_uint32 (atoi buf) }
        match next_field buf with
        | (false, _) => (false, hd)
        | (true, buf) =>
          let hd := { hd with trigger_mask := to_uint32 (atoi buf) }
          match next_field buf with
          | (false, _) => (false, hd)
          | (true, buf) =>
            let hd := { hd with edge_trigger := decide (deref buf = 'Y') }
            match next_field buf with
            | (false, _) => (false, hd)
            | (true, buf) =>
              let hd := { hd with sample_rate := to_uint32 (atoi buf) }
              match next_field buf with
              | (false, _) => (false, hd)
              | (true, buf) =>
                let hd := { hd with sample_count := to_uint32 (atoi buf) }
                match next_field buf with
                | (false, _) => (false, hd)
                | (true, buf) =>
                  let hd := { hd with before_trigger_sample_count := to_uint32 (atoi buf) }
                  (true, hd)

/-! ## protocol.c: the receive handler -/

/-- The heap block `raw_sample_buf` points to. After `g_free` the pointer dangles: the
block is kept with `live = false`. -/
structure sample_buf where
  cells : List Nat
  live : Bool
deriving DecidableEq, Repr

/-- Modelled from the spec: the fields `before_trigger_sample_count`,
`trigger_channel_mask` and `trigger_mask`, which protocol.c reads and writes but the
declaration of `struct dev_context` in protocol.h does not have; they hold the 32-bit
header values copied into the session. The other fields are those of
`struct dev_context` that the handler and `dev_acquisition_start` read or write, with
their C types: `uint64_t` for `cur_samplerate`, `limit_samples` and `num_samples`,
`uint32_t` for `num_transfers`, `int32_t` for `num_logic_channels`, `size_t` for
`logic_unitsize`; `raw_sample_buf` is `none` for the null pointer. -/
structure dev_context where
  cur_samplerate : Nat
  limit_samples : Nat
  num_samples : Nat
  num_transfers : Nat
  num_logic_channels : Int
  logic_unitsize : Nat
  raw_sample_buf : Option sample_buf
  before_trigger_sample_count : Nat
  trigger_channel_mask : Nat
  trigger_mask : Nat
deriving DecidableEq, Repr

/-- What the handler does to its environment, in program order. A logic packet carries
the offset of `logic.data` from `raw_sample_buf`, `logic.length`, `logic.unitsize` and
the bytes of the block the sink can read through it. A store is
`raw_sample_buf[offset] = sample`. -/
inductive effect where
  | df_header
  | source_add
  | serial_read (count : Nat) (timeout_ms : Nat)
  | acquisition_stop
  | malloc (n_bytes : Nat)
  | frame_begin
  | meta_samplerate (rate : Nat)
  | serial_write (bytes : List Char) (timeout_ms : Nat)
  | store (offset : Int) (sample : Nat)
  | logic (offset : Nat) (length : Nat) (unitsize : Nat) (data : List Nat)
  | trigger
  | free
  | frame_end
  | serial_flush
deriving DecidableEq, Repr

/-- What the environment answers during one call of the handler: the return value of
`serial_read_blocking` and the characters it left in `read_buffer`, whether
`g_try_malloc` finds memory and what the fresh block contains, and the return value of
`serial_write_blocking`. -/
structure read_event where
  len : Int
  read_buffer : List Char
  alloc_ok : Bool
  alloc_fill : Nat → Nat
  written : Int

/-- Result of one call of the handler. -/
structure outcome where
  devc : dev_context
  ret : Bool
  trace : List effect

/-- The glib condition flag `G_IO_IN`. -/
def G_IO_IN : Nat := 1

/-- `g_try_malloc(n_bytes)`: the null pointer for a request of zero bytes or when the
environment has no memory, otherwise a fresh live block of `n_bytes` cells. -/
def g_try_malloc (n_bytes : Nat) (ev : read_event) : Option sample_buf :=
  if n_bytes = 0 then none
  else if ev.alloc_ok then some { cells := (List.range n_bytes).map ev.alloc_fill, live := true }
  else none

/-- `g_free(raw_sample_buf)`: the pointer itself is left as it is. -/
def g_free (b : Option sample_buf) : Option sample_buf :=
  b.map (fun blk => { blk with live := false })

/-- `raw_sample_buf[offset] = sample`. A store outside the block does not change the
block. -/
def buf_store (b : Option sample_buf) (offset : Int) (sample : Nat) : Option sample_buf :=
  b.map (fun blk =>
    if 0 ≤ offset ∧ offset < blk.cells.length
    then { blk with cells := blk.cells.set offset.toNat sample }
    else blk)

/-- The bytes of the block that are readable at `raw_sample_buf + offset`, at most
`length` of them. -/
def buf_view (b : Option sample_buf) (offset length : Nat) : List Nat :=
  match b with
  | none => []
  | some blk => (blk.cells.drop offset).take length

/-- Lines 109-144 of protocol.c: the capture is complete; send the pre-trigger packet
and the trigger marker (when a trigger mask is set), the remaining samples and the
frame end, release the buffer and reset the counters. Unsigned 64-bit arithmetic is
computed on integers and reduced modulo 2^64 at the end. -/
def emit_capture (devc : dev_context) : dev_context × List effect :=
  let num_pre_trigger_samples : Int :=
    to_int (min devc.before_trigger_sample_count devc.num_samples : Nat)
  let pre : List effect :=
    if devc.trigger_channel_mask ≠ 0 then
      (if num_pre_trigger_samples ≠ 0 then
        let length := to_uint64 (num_pre_trigger_samples * devc.logic_unitsize)
        let offset :=
          to_uint64 (((devc.limit_samples : Int) - devc.num_samples) * devc.logic_unitsize)
        [effect.logic offset length devc.logic_unitsize
          (buf_view devc.raw_sample_buf offset length)]
      else []) ++ [effect.trigger]
    else []
  let length :=
    to_uint64 (((devc.num_samples : Int) - num_pre_trigger_samples) * devc.logic_unitsize)
  let offset :=
    to_uint64 ((num_pre_trigger_samples + (devc.limit_samples : Int) - devc.num_samples)
      * devc.logic_unitsize)
  let post : List effect :=
    [effect.logic offset length devc.logic_unitsize
      (buf_view devc.raw_sample_buf offset length)]
  ({ devc with raw_sample_buf := g_free devc.raw_sample_buf, num_samples := 0,
               num_transfers := 0 },
   pre ++ post ++ [effect.free, effect.frame_end, effect.serial_flush])

/-- The conversion `sample = read_buffer[k]` of a `char` to `uint8_t`. -/
def sample_of (c : Char) : Nat := c.toNat % 256

/-- One iteration of the loop at lines 101-147 of protocol.c, for the character
`read_buffer[k]`. -/
def store_sample (devc : dev_context) (c : Char) : dev_context × List effect :=
  let sample : Nat := sample_of c
  let devc := { devc with num_samples := (devc.num_samples + 1) % 2 ^ 64 }
  let offset : Int :=
    to_int (to_uint64 (((devc.limit_samples : Int) - devc.num_samples) * devc.logic_unitsize))
  let devc := { devc with raw_sample_buf := buf_store devc.raw_sample_buf offset sample }
  if devc.num_samples ≥ devc.limit_samples then
    let r := emit_capture devc
    (r.1, effect.store offset sample :: r.2)
  else (devc, [effect.store offset sample])

/-- The loop at lines 101-147: `store_sample` for each of the characters
`read_buffer[0]`, ..., `read_buffer[len - 1]` in turn. -/
def store_samples : dev_context → List Char → dev_context × List effect
  | devc, [] => (devc, [])
  | devc, c :: cs =>
    let r := store_sample devc c
    let r2 := store_samples r.1 cs
    (r2.1, r.2 ++ r2.2)

/-- The header that `parse_header` is handed at line 54 is an uninitialised local; a
successful parse overwrites all its fields. -/
def hd_uninit : fala_header := ⟨0, 0, 0, false, 0, 0, 0⟩

/-- `bp5_binmode_fala_receive_data(fd, revents, cb_data)` for a device instance whose
`cb_data` and `priv` pointers are set (as `dev_acquisition_start` registers it). -/
def bp5_binmode_fala_receive_data (devc : dev_context) (revents : Nat) (ev : read_event) :
    outcome :=
  if revents = G_IO_IN then
    if devc.num_transfers = 0 then
      let rd := effect.serial_read 1024 10
      if ev.len = 0 then ⟨devc, true, [rd]⟩
      else if ev.len < 0 ∨ ev.len < 18 ∨ (parse_header ev.read_buffer hd_uninit).1 = false then
        ⟨devc, false, [rd, effect.acquisition_stop]⟩
      else
        let hd := (parse_header ev.read_buffer hd_uninit).2
        let devc := { devc with
          limit_samples := hd.sample_count,
          num_logic_channels := to_int hd.n_channels,
          cur_samplerate := hd.sample_rate,
          before_trigger_sample_count := hd.before_trigger_sample_count,
          trigger_channel_mask := hd.trigger_channel_mask,
          trigger_mask := hd.trigger_mask }
        let devc := { devc with raw_sample_buf := g_try_malloc devc.limit_samples ev }
        let al := effect.malloc devc.limit_samples
        if devc.raw_sample_buf = none then
          ⟨devc, false, [rd, al, effect.acquisition_stop]⟩
        else
          let tr := [rd, al, effect.frame_begin, effect.meta_samplerate devc.cur_samplerate,
            effect.serial_write ['+'] 100]
          if ev.written ≠ 1 then ⟨devc, false, tr⟩
          else ⟨{ devc with num_transfers := (devc.num_transfers + 1) % 2 ^ 32 }, true, tr⟩
    else
      let devc := { devc with num_transfers := (devc.num_transfers + 1) % 2 ^ 32 }
      if devc.num_samples < devc.limit_samples then
        let rd := effect.serial_read 1024 10
        if ev.len ≤ 0 then
          if ev.len = 0 then ⟨devc, true, [rd]⟩
          else ⟨devc, false, [rd, effect.acquisition_stop]⟩
        else
          let r := store_samples devc (ev.read_buffer.take ev.len.toNat)
          ⟨r.1, true, rd :: r.2⟩
      else ⟨devc, true, []⟩
  else ⟨devc, true, []⟩

/-- `dev_acquisition_start` of api.c: resets the operational state, sends the datafeed
header and registers the handler for `G_IO_IN`. -/
def dev_acquisition_start (devc : dev_context) : dev_context × List effect :=
  ({ devc with num_samples := 0, num_transfers := 0, logic_unitsize := 1 },
   [effect.df_header, effect.source_add])

/-- The handler called once per read event, each with its environment answers. -/
def receive_events : dev_context → List read_event → dev_context × List effect
  | devc, [] => (devc, [])
  | devc, ev :: evs =>
    let o := bp5_binmode_fala_receive_data devc G_IO_IN ev
    let r := receive_events o.devc evs
    (r.1, o.trace ++ r.2)

/-- A read event that delivers the characters `chunk` (`serial_read_blocking` returns
their number). -/
def chunk_event (chunk : List Char) : read_event :=
  { len := chunk.length, read_buffer := chunk, alloc_ok := true, alloc_fill := fun _ => 0,
    written := 1 }

/-- The datafeed items among the effects: what the session sink receives. -/
def is_datafeed : effect → Bool
  | .df_header => true
  | .frame_begin => true
  | .meta_samplerate _ => true
  | .logic _ _ _ _ => true
  | .trigger => true
  | .frame_end => true
  | _ => false

/-! ## Definitions used to state the properties -/

/-- Number of `;` in the C string at `s`. -/
def semis (s : List Char) : Nat := (cstr s).count ';'

/-- The result of `k` successive calls of `next_field`, when all of them succeed. -/
def skip_fields : Nat → List Char → Option (List Char)
  | 0, buf => some buf
  | k + 1, buf => if (next_field buf).1 then skip_fields k (next_field buf).2 else none

/-- The text of the `k`-th field of a header record: what follows the `k`-th `;` after
the marker (empty when there is no such `;`). -/
def field_text (k : Nat) (buf : List Char) : List Char :=
  (skip_fields k (buf.drop 9)).getD []

/-- Where `strtol` looks for digits: after the leading white space and one optional
sign. -/
def number_start (s : List Char) : List Char :=
  if deref (s.dropWhile isspace) = '-' ∨ deref (s.dropWhile isspace) = '+'
  then (s.dropWhile isspace).tail
  else s.dropWhile isspace

/-- The unsigned decimal text of `v`. -/
def unsigned_decimal (v : Nat) : List Char := (Nat.repr v).toList

/-- The text of the boolean field of a header record. -/
def edge_flag (edge : Bool) : Char := if edge then 'Y' else 'N'

/-- The header record for seven values: the marker and `;`, then the seven fields in wire
order, each followed by `;`. -/
def header_record (n_channels trigger_channel_mask trigger_mask : Nat) (edge : Bool)
    (sample_rate sample_count before_trigger : Nat) : List Char :=
  "$FALADATA;".toList ++ (unsigned_decimal n_channels ++ ';' ::
    (unsigned_decimal trigger_channel_mask ++ ';' ::
    (unsigned_decimal trigger_mask ++ ';' ::
    ([edge_flag edge] ++ ';' ::
    (unsigned_decimal sample_rate ++ ';' ::
    (unsigned_decimal sample_count ++ ';' ::
    (unsigned_decimal before_trigger ++ [';'])))))))

/-- The offset at which the next sample is stored (lines 104-105 of protocol.c). -/
def store_offset (devc : dev_context) : Int :=
  to_int (to_uint64 (((devc.limit_samples : Int) - ((devc.num_samples + 1) % 2 ^ 64 : Nat))
    * devc.logic_unitsize))

/-- Lines 103-106 of protocol.c: count the sample and store it, without the test for
completion. -/
def put_sample (devc : dev_context) (c : Char) : dev_context :=
  { devc with
    num_samples := (devc.num_samples + 1) % 2 ^ 64,
    raw_sample_buf := buf_store devc.raw_sample_buf (store_offset devc) (sample_of c) }

/-- The function `put_sample` for each character in turn. -/
def put_samples : dev_context → List Char → dev_context
  | devc, [] => devc
  | devc, c :: cs => put_samples (put_sample devc c) cs

/-- The stores that `put_samples` performs. -/
def stores : dev_context → List Char → List effect
  | _, [] => []
  | devc, c :: cs =>
    effect.store (store_offset devc) (sample_of c) :: stores (put_sample devc c) cs

/-- The device context with its transfer counter set to `t`. -/
def set_transfers (devc : dev_context) (t : Nat) : dev_context :=
  { devc with num_transfers := t }

/-- The device context in which the handler leaves an accepted header event `ev` with
header `hd`, when the acquisition has just been started. -/
def cycle_start (hd : fala_header) (ev : read_event) : dev_context :=
  { cur_samplerate := hd.sample_rate, limit_samples := hd.sample_count, num_samples := 0,
    num_transfers := 1, num_logic_channels := to_int hd.n_channels, logic_unitsize := 1,
    raw_sample_buf := some ⟨(List.range hd.sample_count).map ev.alloc_fill, true⟩,
    before_trigger_sample_count := hd.before_trigger_sample_count,
    trigger_channel_mask := hd.trigger_channel_mask, trigger_mask := hd.trigger_mask }

/-- The datafeed items of a list of effects, in order. -/
def datafeed (tr : List effect) : List effect := tr.filter is_datafeed

/-- Offset and length of a logic packet. -/
def logic_span : effect → Option (Nat × Nat)
  | .logic offset length _ _ => some (offset, length)
  | _ => none

/-- Every event of the list reaches the handler in the streaming state
(`num_transfers ≠ 0`): the events are read events while streaming. -/
def streaming_run : dev_context → List read_event → Prop
  | _, [] => True
  | devc, ev :: evs =>
    devc.num_transfers ≠ 0 ∧
      streaming_run (bp5_binmode_fala_receive_data devc G_IO_IN ev).devc evs

instance (devc : dev_context) (evs : List read_event) : Decidable (streaming_run devc evs) := by
  induction evs generalizing devc with
  | nil => exact isTrue trivial
  | cons ev evs ih =>
    unfold streaming_run
    exact @instDecidableAnd _ _ _ (ih _)

/-- The offset of a store into the sample buffer. -/
def store_index : effect → Option Int
  | .store offset _ => some offset
  | _ => none

/-- A zeroed device context, as `g_malloc0` returns it in `scan`. -/
def zeroed_context : dev_context := ⟨0, 0, 0, 0, 0, 0, none, 0, 0, 0⟩

/-- The characters with the given byte values. -/
def bytes (l : List Nat) : List Char := l.map Char.ofNat

/-- The calls of `serial_read_blocking` among the effects. -/
def is_read : effect → Bool
  | .serial_read _ _ => true
  | _ => false

/-- The effects other than the calls of `serial_read_blocking`. -/
def without_reads (tr : List effect) : List effect :=
  tr.filter (fun e => !is_read e)

/-- The read event delivers a header that the handler accepts: at least 18 characters,
`parse_header` succeeds with the header `hd`, the buffer is allocated and the `+` is
written. -/
def valid_header_event (ev : read_event) (hd : fala_header) : Prop :=
  18 ≤ ev.len ∧ parse_header ev.read_buffer hd_uninit = (true, hd) ∧ ev.alloc_ok = true ∧
    ev.written = 1

instance (ev : read_event) (hd : fala_header) : Decidable (valid_header_event ev hd) := by
  unfold valid_header_event
  infer_instance

/-! ## The C library functions on header text -/

theorem char_toNat_inj {a b : Char} (h : a.toNat = b.toNat) : a = b := by
  rw [← Char.ofNat_toNat a, h, Char.ofNat_toNat]

theorem strncmp_eq_zero_iff (m : List Char) (hm : ∀ c ∈ m, c ≠ NUL) (s : List Char) :
    strncmp s m m.length = 0 ↔ s.take m.length = m := by
  induction m generalizing s with
  | nil => simp [strncmp]
  | cons a m ih =>
    have ha : a ≠ NUL := hm a (by simp)
    have hm' : ∀ c ∈ m, c ≠ NUL := fun c hc => hm c (by simp [hc])
    have hsub : ∀ x : Char, x ≠ a → (x.toNat : Int) - (a.toNat : Int) ≠ 0 := by
      intro x hx h
      exact hx (char_toNat_inj (by omega))
    cases s with
    | nil =>
      simp [strncmp, deref, Ne.symm ha]
      exact hsub NUL (Ne.symm ha)
    | cons x xs =>
      by_cases hx : x = a
      · subst hx
        simp [strncmp, deref, ha, ih hm' xs]
      · simp [strncmp, deref, hx]
        exact hsub x hx

theorem strncmp_marker (s : List Char) :
    strncmp s "$FALADATA".toList 9 = 0 ↔ s.take 9 = "$FALADATA".toList := by
  have := strncmp_eq_zero_iff "$FALADATA".toList (by decide) s
  simpa using this

theorem strchr_semis (s : List Char) :
    match strchr s ';' with
    | none => semis s = 0
    | some f => semis f.tail + 1 = semis s := by
  induction s with
  | nil => simp [strchr, semis, cstr]
  | cons x xs ih =>
    unfold strchr
    by_cases h1 : x = ';'
    · subst h1
      simp [semis, cstr, List.takeWhile_cons, NUL]

    · by_cases h2 : x = NUL
      · subst h2
        simp [semis, cstr, List.takeWhile_cons, h1]
      · simp only [h1, h2, if_false]
        revert ih
        cases strchr xs ';' <;> simp [semis, cstr, List.takeWhile_cons, h2, List.count_cons, h1]

theorem next_field_semis (s : List Char) :
    ((next_field s).1 = true ↔ 1 ≤ semis s) ∧
    ((next_field s).1 = true → semis (next_field s).2 + 1 = semis s) := by
  have h := strchr_semis s
  unfold next_field
  cases hs : strchr s ';' with
  | none => rw [hs] at h; simp at h; simp [h]
  | some f => rw [hs] at h; simp at h; simp; omega

theorem skip_fields_isSome (k : Nat) (s : List Char) :
    (skip_fields k s).isSome = true ↔ k ≤ semis s := by
  induction k generalizing s with
  | zero => simp [skip_fields]
  | succ k ih =>
    have h := next_field_semis s
    unfold skip_fields
    by_cases hn : (next_field s).1 = true
    · simp only [hn, if_true, ih]
      have := h.2 hn
      omega
    · simp only [hn]
      have : ¬ (1 ≤ semis s) := fun h1 => hn (h.1.2 h1)
      simp; omega

theorem skip7 (b : List Char) : skip_fields 7 b =
  if (next_field b).1 then
    let b := (next_field b).2
    if (next_field b).1 then
    let b := (next_field b).2
    if (next_field b).1 then
    let b := (next_field b).2
    if (next_field b).1 then
    let b := (next_field b).2
    if (next_field b).1 then
    let b := (next_field b).2
    if (next_field b).1 then
    let b := (next_field b).2
    if (next_field b).1 then some (next_field b).2 else none else none else none else none else none else none else none := by
  rfl

theorem parse_header_ok_iff_skip (buf : List Char) (hd : fala_header) :
    (parse_header buf hd).1 = true ↔
      strncmp buf "$FALADATA".toList 9 = 0 ∧ (skip_fields 7 (buf.drop 9)).isSome = true := by
  unfold parse_header
  generalize strncmp buf "$FALADATA".toList 9 = c
  generalize buf.drop 9 = b0
  by_cases h0 : c = 0
  · subst h0
    rw [skip7]
    simp only [ne_eq, not_true_eq_false, if_false, true_and]
    rcases h1 : next_field b0 with ⟨o1, b1⟩
    cases o1 <;> simp only [Bool.false_eq_true, if_false, if_true, Option.isSome_none]
    rcases h2 : next_field b1 with ⟨o2, b2⟩
    cases o2 <;> simp only [Bool.false_eq_true, if_false, if_true, Option.isSome_none]
    rcases h3 : next_field b2 with ⟨o3, b3⟩
    cases o3 <;> simp only [Bool.false_eq_true, if_false, if_true, Option.isSome_none]
    rcases h4 : next_field b3 with ⟨o4, b4⟩
    cases o4 <;> simp only [Bool.false_eq_true, if_false, if_true, Option.isSome_none]
    rcases h5 : next_field b4 with ⟨o5, b5⟩
    cases o5 <;> simp only [Bool.false_eq_true, if_false, if_true, Option.isSome_none]
    rcases h6 : next_field b5 with ⟨o6, b6⟩
    cases o6 <;> simp only [Bool.false_eq_true, if_false, if_true, Option.isSome_none]
    rcases h7 : next_field b6 with ⟨o7, b7⟩
    cases o7 <;> simp only [Bool.false_eq_true, if_false, if_true, Option.isSome_none, Option.isSome_some]
  · simp [h0]

theorem digitChar_spec (m : Nat) (h : m < 10) :
    isdigit (Nat.digitChar m) = true ∧ (Nat.digitChar m).toNat - 48 = m := by
  interval_cases m <;> decide

theorem toDigitsCore_digits (fuel n : Nat) (ds : List Char)
    (hds : ∀ c ∈ ds, isdigit c = true) :
    ∀ c ∈ Nat.toDigitsCore 10 fuel n ds, isdigit c = true := by
  induction fuel generalizing n ds with
  | zero => simpa [Nat.toDigitsCore] using hds
  | succ fuel ih =>
    have hd := (digitChar_spec (n % 10) (Nat.mod_lt _ (by decide))).1
    have hds' : ∀ c ∈ Nat.digitChar (n % 10) :: ds, isdigit c = true := by
      intro c hc
      rcases List.mem_cons.1 hc with h | h
      · rw [h]; exact hd
      · exact hds c h
    unfold Nat.toDigitsCore
    by_cases h0 : n / 10 = 0
    · simp only [h0, if_true]; exact hds'
    · simp only [h0, if_false]; exact ih _ _ hds'

theorem toDigitsCore_value (fuel n : Nat) (ds : List Char) (hf : n < fuel) :
    ∃ k, ∀ tail acc, digits_value (Nat.toDigitsCore 10 fuel n ds ++ tail) acc
      = digits_value (ds ++ tail) (acc * 10 ^ k + n) := by
  induction fuel generalizing n ds with
  | zero => omega
  | succ fuel ih =>
    have hd := digitChar_spec (n % 10) (Nat.mod_lt _ (by decide))
    unfold Nat.toDigitsCore
    by_cases h0 : n / 10 = 0
    · refine ⟨1, fun tail acc => ?_⟩
      have hn : n % 10 = n := by omega
      rw [hn] at hd
      simp only [h0, if_true, List.cons_append, digits_value, hd.1, hd.2, pow_one, hn]
    · have hlt : n / 10 < fuel := by omega
      obtain ⟨k, hk⟩ := ih (n / 10) (Nat.digitChar (n % 10) :: ds) hlt
      refine ⟨k + 1, fun tail acc => ?_⟩
      simp only [h0, if_false, hk, List.cons_append, digits_value, hd.1, hd.2, if_true]
      congr 1
      rw [pow_succ]
      have := Nat.div_add_mod n 10
      nlinarith [this]

theorem toDigitsCore_ne_nil (fuel n : Nat) (ds : List Char) (hf : 0 < fuel) :
    Nat.toDigitsCore 10 fuel n ds ≠ [] := by
  induction fuel generalizing n ds with
  | zero => omega
  | succ fuel ih =>
    unfold Nat.toDigitsCore
    by_cases h0 : n / 10 = 0
    · simp [h0]
    · simp only [h0, if_false]
      cases fuel with
      | zero => simp [Nat.toDigitsCore]
      | succ f => exact ih _ _ (by omega)

theorem unsigned_decimal_eq (v : Nat) : unsigned_decimal v = Nat.toDigits 10 v := rfl

theorem unsigned_decimal_digits (v : Nat) : ∀ c ∈ unsigned_decimal v, isdigit c = true := by
  rw [unsigned_decimal_eq]
  exact toDigitsCore_digits _ _ _ (by simp)

theorem unsigned_decimal_ne_nil (v : Nat) : unsigned_decimal v ≠ [] := by
  rw [unsigned_decimal_eq]
  exact toDigitsCore_ne_nil _ _ _ (by omega)

theorem isdigit_ne {c : Char} (h : isdigit c = true) :
    c ≠ ';' ∧ c ≠ NUL ∧ c ≠ '-' ∧ c ≠ '+' ∧ isspace c = false := by
  have h48 : 48 ≤ c.toNat ∧ c.toNat ≤ 57 := by simpa [isdigit] using h
  refine ⟨?_, ?_, ?_, ?_, ?_⟩
  · rintro rfl; revert h48; decide
  · rintro rfl; revert h48; decide
  · rintro rfl; revert h48; decide
  · rintro rfl; revert h48; decide
  · simp [isspace]; omega

theorem digits_value_field (v : Nat) (rest : List Char) :
    digits_value (unsigned_decimal v ++ ';' :: rest) 0 = v := by
  obtain ⟨k, hk⟩ := toDigitsCore_value (v + 1) v [] (by omega)
  rw [unsigned_decimal_eq, Nat.toDigits, hk]
  simp [digits_value, isdigit]

theorem atoi_field (v : Nat) (hv : v < 2 ^ 32) (rest : List Char) :
    to_uint32 (atoi (unsigned_decimal v ++ ';' :: rest)) = v := by
  have hne := unsigned_decimal_ne_nil v
  have hdig := unsigned_decimal_digits v
  have hval := digits_value_field v rest
  revert hne hdig hval
  cases unsigned_decimal v with
  | nil => simp
  | cons d ds =>
    intro _ hdig hval
    have hd := isdigit_ne (hdig d (by simp))
    unfold atoi strtol
    simp only [List.cons_append, List.dropWhile_cons, hd.2.2.2.2, deref, List.headD_cons,
      hd.2.2.1, hd.2.2.2.1, if_false, Bool.false_eq_true]
    rw [List.cons_append] at hval
    rw [hval]
    simp only [to_uint32, to_int, LONG_MAX]
    omega

theorem strchr_field (f rest : List Char) (hf : ∀ c ∈ f, c ≠ ';' ∧ c ≠ NUL) :
    strchr (f ++ ';' :: rest) ';' = some (';' :: rest) := by
  induction f with
  | nil => simp [strchr]
  | cons x xs ih =>
    have hx := hf x (by simp)
    have ih' := ih (fun c hc => hf c (by simp [hc]))
    simp only [List.cons_append, strchr, hx.1, hx.2, if_false]
    exact ih'

theorem next_field_field (f rest : List Char) (hf : ∀ c ∈ f, c ≠ ';' ∧ c ≠ NUL) :
    next_field (f ++ ';' :: rest) = (true, rest) := by
  simp [next_field, strchr_field f rest hf]

theorem next_field_decimal (v : Nat) (rest : List Char) :
    next_field (unsigned_decimal v ++ ';' :: rest) = (true, rest) :=
  next_field_field _ _ (fun c hc =>
    ⟨(isdigit_ne (unsigned_decimal_digits v c hc)).1, (isdigit_ne (unsigned_decimal_digits v c hc)).2.1⟩)

theorem parse_header_no_marker (buf : List Char) (hd : fala_header)
    (h : buf.take 9 ≠ "$FALADATA".toList) : parse_header buf hd = (false, hd) := by
  have : strncmp buf "$FALADATA".toList 9 ≠ 0 := fun h0 => h ((strncmp_marker buf).1 h0)
  unfold parse_header
  rw [if_pos this]

/-! ## The header parser -/

/-- C1. Round trip of `parse_header`: for seven values (six unsigned 32-bit integers and
a boolean), parsing the record made of the marker, `;` and the seven fields in wire
order, each integer in unsigned decimal, the boolean as `Y` or `N`, each field followed
by `;`, succeeds and stores exactly the seven values in the header, whatever the header
held before. -/
theorem parse_header_round_trip (ch tcm tm rate cnt pre : Nat) (edge : Bool)
    (h1 : ch < 2 ^ 32) (h2 : tcm < 2 ^ 32) (h3 : tm < 2 ^ 32) (h4 : rate < 2 ^ 32)
    (h5 : cnt < 2 ^ 32) (h6 : pre < 2 ^ 32) (hd : fala_header) :
    parse_header (header_record ch tcm tm edge rate cnt pre) hd
      = (true, ⟨ch, tcm, tm, edge, rate, cnt, pre⟩) := by
  have hm : strncmp (header_record ch tcm tm edge rate cnt pre) "$FALADATA".toList 9 = 0 := by
    rw [strncmp_marker]; rfl
  have hdrop : (header_record ch tcm tm edge rate cnt pre).drop 9 = [] ++ ';' ::
    (unsigned_decimal ch ++ ';' :: (unsigned_decimal tcm ++ ';' ::
    (unsigned_decimal tm ++ ';' :: ([edge_flag edge] ++ ';' ::
    (unsigned_decimal rate ++ ';' :: (unsigned_decimal cnt ++ ';' ::
    (unsigned_decimal pre ++ [';']))))))) := rfl
  have he : next_field ([edge_flag edge] ++ ';' :: (unsigned_decimal rate ++ ';' ::
      (unsigned_decimal cnt ++ ';' :: (unsigned_decimal pre ++ [';']))))
      = (true, (unsigned_decimal rate ++ ';' :: (unsigned_decimal cnt ++ ';' ::
      (unsigned_decimal pre ++ [';'])))) :=
    next_field_field _ _ (by cases edge <;> simp [edge_flag, NUL])
  have he2 : decide (deref ([edge_flag edge] ++ ';' :: (unsigned_decimal rate ++ ';' ::
      (unsigned_decimal cnt ++ ';' :: (unsigned_decimal pre ++ [';'])))) = 'Y') = edge := by
    cases edge <;> simp [edge_flag, deref]
  unfold parse_header
  rw [if_neg (by simpa using hm), hdrop]
  simp only [next_field_field [] _ (by simp), next_field_decimal, atoi_field, h1, h2, h3, h4,
    h5, h6, he, he2]

/-- Witness of C1: the record of the values 8, 0, 0, N, 8000000, 1000 and 4294967295. -/
theorem parse_header_round_trip_witness :
    (8 < 2 ^ 32 ∧ 0 < 2 ^ 32 ∧ 8000000 < 2 ^ 32 ∧ 1000 < 2 ^ 32 ∧ 4294967295 < 2 ^ 32) ∧
    header_record 8 0 0 false 8000000 1000 4294967295
      = "$FALADATA;8;0;0;N;8000000;1000;4294967295;".toList ∧
    parse_header (header_record 8 0 0 false 8000000 1000 4294967295) hd_uninit
      = (true, ⟨8, 0, 0, false, 8000000, 1000, 4294967295⟩) :=
  ⟨by decide, by decide,
    parse_header_round_trip 8 0 0 8000000 1000 4294967295 false (by decide) (by decide)
      (by decide) (by decide) (by decide) (by decide) hd_uninit⟩

/-- C2. Acceptance of `parse_header`: for every input, the call succeeds if and only if
the input begins with the nine characters of the marker and the text after the marker
holds at least seven `;`. -/
theorem parse_header_accepts_iff (buf : List Char) (hd : fala_header) :
    (parse_header buf hd).1 = true ↔
      buf.take 9 = "$FALADATA".toList ∧ 7 ≤ semis (buf.drop 9) := by
  rw [parse_header_ok_iff_skip, strncmp_marker, skip_fields_isSome]

/-- Counterexample to C3: on the record with the marker and two `;` the call fails and
has overwritten the first two fields of the caller's header. -/
theorem parse_header_partial_write :
    (parse_header "$FALADATA;8;".toList ⟨7, 7, 7, true, 7, 7, 7⟩).1 = false ∧
    (parse_header "$FALADATA;8;".toList ⟨7, 7, 7, true, 7, 7, 7⟩).2
      = ⟨8, 0, 7, true, 7, 7, 7⟩ ∧
    (parse_header "$FALADATA;8;".toList ⟨7, 7, 7, true, 7, 7, 7⟩).2
      ≠ ⟨7, 7, 7, true, 7, 7, 7⟩ := by
  decide

/-- C3, amended. When `parse_header` fails, the fields it did not reach keep their
values: without the marker the whole header is unchanged, and with the marker and `k`
(fewer than seven) `;` after it, only the first `k` fields in wire order can have been
overwritten; the last field is never written by a failing call. -/
theorem parse_header_failure_frame (buf : List Char) (hd : fala_header)
    (hfail : (parse_header buf hd).1 = false) :
    (buf.take 9 ≠ "$FALADATA".toList → (parse_header buf hd).2 = hd) ∧
    (semis (buf.drop 9) ≤ 0 → (parse_header buf hd).2.n_channels = hd.n_channels) ∧
    (semis (buf.drop 9) ≤ 1 →
      (parse_header buf hd).2.trigger_channel_mask = hd.trigger_channel_mask) ∧
    (semis (buf.drop 9) ≤ 2 → (parse_header buf hd).2.trigger_mask = hd.trigger_mask) ∧
    (semis (buf.drop 9) ≤ 3 → (parse_header buf hd).2.edge_trigger = hd.edge_trigger) ∧
    (semis (buf.drop 9) ≤ 4 → (parse_header buf hd).2.sample_rate = hd.sample_rate) ∧
    (semis (buf.drop 9) ≤ 5 → (parse_header buf hd).2.sample_count = hd.sample_count) ∧
    (parse_header buf hd).2.before_trigger_sample_count = hd.before_trigger_sample_count := by
  refine ⟨fun h => by rw [parse_header_no_marker buf hd h], ?_⟩
  revert hfail
  unfold parse_header
  generalize strncmp buf "$FALADATA".toList 9 = c
  generalize buf.drop 9 = b0
  by_cases h0 : c = 0
  · subst h0
    simp only [ne_eq, not_true_eq_false, if_false]
    have s1 := next_field_semis b0
    rcases h1 : next_field b0 with ⟨o1, b1⟩
    rw [h1] at s1
    cases o1
    · simp at *
    dsimp only
    have s2 := next_field_semis b1
    rcases h2 : next_field b1 with ⟨o2, b2⟩
    rw [h2] at s2
    cases o2
    · simp at *; omega
    dsimp only
    have s3 := next_field_semis b2
    rcases h3 : next_field b2 with ⟨o3, b3⟩
    rw [h3] at s3
    cases o3
    · simp at *; omega
    dsimp only
    have s4 := next_field_semis b3
    rcases h4 : next_field b3 with ⟨o4, b4⟩
    rw [h4] at s4
    cases o4
    · simp at *; omega
    dsimp only
    have s5 := next_field_semis b4
    rcases h5 : next_field b4 with ⟨o5, b5⟩
    rw [h5] at s5
    cases o5
    · simp at *; omega
    dsimp only
    have s6 := next_field_semis b5
    rcases h6 : next_field b5 with ⟨o6, b6⟩
    rw [h6] at s6
    cases o6
    · simp at *; omega
    dsimp only
    have s7 := next_field_semis b6
    rcases h7 : next_field b6 with ⟨o7, b7⟩
    rw [h7] at s7
    cases o7
    · simp at *; omega
    dsimp only
    simp
  · simp [h0]

/-- Witness of C3, amended: the failing record with two `;` leaves the third field. -/
theorem parse_header_failure_frame_witness :
    (parse_header "$FALADATA;8;".toList ⟨7, 7, 7, true, 7, 7, 7⟩).1 = false ∧
    (parse_header "$FALADATA;8;".toList ⟨7, 7, 7, true, 7, 7, 7⟩).2.trigger_mask = 7 :=
  ⟨by decide,
    (parse_header_failure_frame "$FALADATA;8;".toList ⟨7, 7, 7, true, 7, 7, 7⟩
      (by decide)).2.2.2.1 (by decide)⟩

/-! ## The receive handler: one cycle -/

theorem store_sample_eq (d : dev_context) (c : Char) :
    store_sample d c =
      if (put_sample d c).num_samples ≥ d.limit_samples then
        ((emit_capture (put_sample d c)).1,
          effect.store (store_offset d) (sample_of c) :: (emit_capture (put_sample d c)).2)
      else (put_sample d c, [effect.store (store_offset d) (sample_of c)]) := rfl

@[simp] theorem put_sample_limit (d : dev_context) (c : Char) :
    (put_sample d c).limit_samples = d.limit_samples := rfl

@[simp] theorem put_sample_num (d : dev_context) (c : Char) :
    (put_sample d c).num_samples = (d.num_samples + 1) % 2 ^ 64 := rfl

theorem put_samples_append (d : dev_context) (a b : List Char) :
    put_samples d (a ++ b) = put_samples (put_samples d a) b := by
  induction a generalizing d with
  | nil => rfl
  | cons x xs ih => simp [put_samples, ih]

theorem stores_append (d : dev_context) (a b : List Char) :
    stores d (a ++ b) = stores d a ++ stores (put_samples d a) b := by
  induction a generalizing d with
  | nil => rfl
  | cons x xs ih => simp [put_samples, stores, ih]

theorem put_samples_limit (d : dev_context) (bs : List Char) :
    (put_samples d bs).limit_samples = d.limit_samples := by
  induction bs generalizing d with
  | nil => rfl
  | cons x xs ih => simp [put_samples, ih]

theorem put_samples_num (d : dev_context) (bs : List Char)
    (h : d.num_samples + bs.length < 2 ^ 64) :
    (put_samples d bs).num_samples = d.num_samples + bs.length := by
  induction bs generalizing d with
  | nil => rfl
  | cons x xs ih =>
    simp only [List.length_cons] at h
    have h1 : (d.num_samples + 1) % 2 ^ 64 = d.num_samples + 1 := Nat.mod_eq_of_lt (by omega)
    simp only [put_samples, List.length_cons]
    rw [ih, put_sample_num, h1]
    · omega
    · rw [put_sample_num, h1]; omega

theorem store_samples_partial (bs : List Char) (d : dev_context)
    (h : d.num_samples + bs.length < d.limit_samples) (hl : d.limit_samples < 2 ^ 64) :
    store_samples d bs = (put_samples d bs, stores d bs) := by
  induction bs generalizing d with
  | nil => rfl
  | cons x xs ih =>
    simp only [List.length_cons] at h
    have h1 : (d.num_samples + 1) % 2 ^ 64 = d.num_samples + 1 := Nat.mod_eq_of_lt (by omega)
    have hn : ¬ (put_sample d x).num_samples ≥ d.limit_samples := by
      rw [put_sample_num, h1]; omega
    simp only [store_samples, store_sample_eq, hn, if_false, put_samples, stores]
    rw [ih]
    · rfl
    · rw [put_sample_num, h1, put_sample_limit]; omega
    · exact hl

theorem store_samples_complete (bs : List Char) (c : Char) (d : dev_context)
    (h : d.num_samples + bs.length + 1 = d.limit_samples) (hl : d.limit_samples < 2 ^ 64) :
    store_samples d (bs ++ [c]) =
      ((emit_capture (put_samples d (bs ++ [c]))).1,
        stores d (bs ++ [c]) ++ (emit_capture (put_samples d (bs ++ [c]))).2) := by
  induction bs generalizing d with
  | nil =>
    simp only [List.length_nil] at h
    have h1 : (d.num_samples + 1) % 2 ^ 64 = d.num_samples + 1 := Nat.mod_eq_of_lt (by omega)
    have hn : (put_sample d c).num_samples ≥ d.limit_samples := by
      rw [put_sample_num, h1]; omega
    simp only [List.nil_append, store_samples, store_sample_eq, hn, if_true, put_samples, stores]
    simp
  | cons x xs ih =>
    simp only [List.length_cons] at h
    have h1 : (d.num_samples + 1) % 2 ^ 64 = d.num_samples + 1 := Nat.mod_eq_of_lt (by omega)
    have hn : ¬ (put_sample d x).num_samples ≥ d.limit_samples := by
      rw [put_sample_num, h1]; omega
    rw [List.cons_append]
    simp only [store_samples, store_sample_eq, hn, if_false, put_samples, stores]
    rw [ih]
    · simp
    · rw [put_sample_num, h1, put_sample_limit]; omega
    · exact hl

theorem put_samples_transfers (d : dev_context) (t : Nat) (bs : List Char) :
    put_samples (set_transfers d t) bs = set_transfers (put_samples d bs) t := by
  induction bs generalizing d with
  | nil => rfl
  | cons x xs ih => exact ih (put_sample d x)

theorem stores_transfers (d : dev_context) (t : Nat) (bs : List Char) :
    stores (set_transfers d t) bs = stores d bs := by
  induction bs generalizing d with
  | nil => rfl
  | cons x xs ih =>
    simp only [stores]
    exact congrArg _ (ih (put_sample d x))

theorem emit_capture_transfers (d : dev_context) (t : Nat) :
    emit_capture (set_transfers d t) = emit_capture d := rfl

theorem step_idle (d : dev_context) (ht : d.num_transfers ≠ 0)
    (hn : d.num_samples < d.limit_samples) :
    bp5_binmode_fala_receive_data d G_IO_IN (chunk_event [])
      = ⟨set_transfers d ((d.num_transfers + 1) % 2 ^ 32), true,
          [effect.serial_read 1024 10]⟩ := by
  simp [bp5_binmode_fala_receive_data, ht, hn, chunk_event, set_transfers]

theorem step_data (d : dev_context) (c : List Char) (ht : d.num_transfers ≠ 0)
    (hn : d.num_samples < d.limit_samples) (hc : c ≠ []) :
    bp5_binmode_fala_receive_data d G_IO_IN (chunk_event c)
      = ⟨(store_samples (set_transfers d ((d.num_transfers + 1) % 2 ^ 32)) c).1, true,
          effect.serial_read 1024 10 ::
            (store_samples (set_transfers d ((d.num_transfers + 1) % 2 ^ 32)) c).2⟩ := by
  have hl : ¬ ((c.length : Int) ≤ 0) := by
    have : 0 < c.length := List.length_pos.2 hc
    omega
  simp [bp5_binmode_fala_receive_data, ht, hn, chunk_event, hl, set_transfers]

theorem step_header_idle (d : dev_context) (ht : d.num_transfers = 0) :
    bp5_binmode_fala_receive_data d G_IO_IN (chunk_event [])
      = ⟨d, true, [effect.serial_read 1024 10]⟩ := by
  simp [bp5_binmode_fala_receive_data, ht, chunk_event]

theorem without_reads_append (a b : List effect) :
    without_reads (a ++ b) = without_reads a ++ without_reads b := by
  simp [without_reads]

theorem without_reads_read (a b : Nat) (l : List effect) :
    without_reads (effect.serial_read a b :: l) = without_reads l := by
  simp [without_reads, is_read]

theorem run_header_idle (cs : List (List Char)) (d : dev_context) (ht : d.num_transfers = 0)
    (hcs : cs.flatten = []) :
    (receive_events d (cs.map chunk_event)).1 = d ∧
      without_reads (receive_events d (cs.map chunk_event)).2 = [] := by
  induction cs with
  | nil => exact ⟨rfl, rfl⟩
  | cons c cs ih =>
    simp only [List.flatten_cons, List.append_eq_nil] at hcs
    obtain ⟨hc, hcs⟩ := hcs
    subst hc
    simp only [List.map_cons, receive_events, step_header_idle d ht]
    refine ⟨(ih hcs).1, ?_⟩
    rw [List.singleton_append, without_reads_read]
    exact (ih hcs).2

theorem mem_stores (d : dev_context) (bs : List Char) (e : effect) (h : e ∈ stores d bs) :
    ∃ o v, e = effect.store o v := by
  induction bs generalizing d with
  | nil => simp [stores] at h
  | cons x xs ih =>
    simp only [stores, List.mem_cons] at h
    rcases h with h | h
    · exact ⟨_, _, h⟩
    · exact ih _ h

theorem without_reads_stores (d : dev_context) (bs : List Char) :
    without_reads (stores d bs) = stores d bs := by
  apply List.filter_eq_self.2
  intro e he
  obtain ⟨o, v, rfl⟩ := mem_stores d bs e he
  rfl

theorem without_reads_emit (d : dev_context) :
    without_reads (emit_capture d).2 = (emit_capture d).2 := by
  simp only [without_reads, emit_capture]
  split_ifs <;> simp [is_read]

theorem flatten_pos_length {cs : List (List Char)} (h : cs.flatten ≠ []) : 1 ≤ cs.length := by
  cases cs with
  | nil => simp at h
  | cons c cs => simp

theorem run_total (cs : List (List Char)) (d : dev_context)
    (ht : 1 ≤ d.num_transfers) (hev : d.num_transfers + cs.length ≤ 2 ^ 32)
    (hl : d.limit_samples < 2 ^ 64)
    (hsum : d.num_samples + cs.flatten.length = d.limit_samples) (hpos : cs.flatten ≠ []) :
    (receive_events d (cs.map chunk_event)).1 = (emit_capture (put_samples d cs.flatten)).1 ∧
    without_reads (receive_events d (cs.map chunk_event)).2
      = stores d cs.flatten ++ (emit_capture (put_samples d cs.flatten)).2 := by
  induction cs generalizing d with
  | nil => simp at hpos
  | cons c cs ih =>
    have hlt : d.num_samples < d.limit_samples := by
      have : 0 < (List.flatten (c :: cs)).length := List.length_pos.2 hpos
      omega
    have ht0 : d.num_transfers ≠ 0 := by omega
    simp only [List.length_cons] at hev
    simp only [List.flatten_cons, List.length_append] at hsum
    by_cases hc : c = []
    · subst hc
      simp only [List.flatten_cons, List.nil_append] at hpos ⊢
      simp only [List.length_nil, Nat.zero_add] at hsum
      have hcs := flatten_pos_length hpos
      have hmod : (d.num_transfers + 1) % 2 ^ 32 = d.num_transfers + 1 :=
        Nat.mod_eq_of_lt (by omega)
      have := ih (set_transfers d (d.num_transfers + 1)) (by simp [set_transfers])
        (by simp [set_transfers]; omega)
        hl hsum hpos
      simp only [List.map_cons, receive_events, step_idle d ht0 hlt, hmod]
      rw [put_samples_transfers, stores_transfers, emit_capture_transfers] at this
      refine ⟨this.1, ?_⟩
      rw [List.singleton_append, without_reads_read, this.2]
    · simp only [List.map_cons, receive_events, step_data d c ht0 hlt hc, List.flatten_cons]
      rw [List.cons_append, without_reads_read, without_reads_append]
      by_cases hrest : cs.flatten = []
      · -- the chunk completes the capture
        rw [hrest, List.append_nil]
        simp only [hrest, List.length_nil, Nat.add_zero] at hsum
        obtain ⟨bs, x, rfl⟩ : ∃ bs x, c = bs ++ [x] :=
          ⟨c.dropLast, c.getLast hc, (List.dropLast_append_getLast hc).symm⟩
        have hcomp := store_samples_complete bs x
          (set_transfers d ((d.num_transfers + 1) % 2 ^ 32))
          (by simp [set_transfers] at hsum ⊢; omega) hl
        rw [hcomp, put_samples_transfers, stores_transfers, emit_capture_transfers]
        have hidle := run_header_idle cs (emit_capture (put_samples d (bs ++ [x]))).1 rfl hrest
        refine ⟨hidle.1, ?_⟩
        rw [hidle.2, List.append_nil, without_reads_append, without_reads_stores,
          without_reads_emit]
      · have hcs := flatten_pos_length hrest
        have hmod : (d.num_transfers + 1) % 2 ^ 32 = d.num_transfers + 1 :=
          Nat.mod_eq_of_lt (by omega)
        rw [hmod]
        have hrl : 0 < cs.flatten.length := List.length_pos.2 hrest
        have hpart := store_samples_partial c (set_transfers d (d.num_transfers + 1))
          (by show d.num_samples + c.length < d.limit_samples; omega) hl
        rw [hpart, put_samples_transfers, stores_transfers]
        have hnum : (put_samples d c).num_samples = d.num_samples + c.length :=
          put_samples_num d c (by omega)
        have := ih (set_transfers (put_samples d c) (d.num_transfers + 1))
          (by simp [set_transfers])
          (by show d.num_transfers + 1 + cs.length ≤ 2 ^ 32; omega)
          (by show (put_samples d c).limit_samples < 2 ^ 64; rw [put_samples_limit]; exact hl)
          (by
            show (put_samples d c).num_samples + cs.flatten.length
              = (put_samples d c).limit_samples
            rw [put_samples_limit, hnum]; omega) hrest
        rw [put_samples_transfers, stores_transfers, emit_capture_transfers,
          ← put_samples_append] at this
        refine ⟨this.1, ?_⟩
        rw [this.2, stores_append, without_reads_stores, List.append_assoc]

theorem header_step (devc : dev_context) (ev : read_event) (hd : fala_header)
    (hv : valid_header_event ev hd) (hn : 1 ≤ hd.sample_count) :
    bp5_binmode_fala_receive_data (dev_acquisition_start devc).1 G_IO_IN ev =
      ⟨{ cur_samplerate := hd.sample_rate, limit_samples := hd.sample_count, num_samples := 0,
         num_transfers := 1, num_logic_channels := to_int hd.n_channels, logic_unitsize := 1,
         raw_sample_buf := some ⟨(List.range hd.sample_count).map ev.alloc_fill, true⟩,
         before_trigger_sample_count := hd.before_trigger_sample_count,
         trigger_channel_mask := hd.trigger_channel_mask, trigger_mask := hd.trigger_mask },
       true,
       [effect.serial_read 1024 10, effect.malloc hd.sample_count, effect.frame_begin,
        effect.meta_samplerate hd.sample_rate, effect.serial_write ['+'] 100]⟩ := by
  obtain ⟨h18, hp, ha, hw⟩ := hv
  have h0 : ev.len ≠ 0 := by omega
  have h1 : ¬ (ev.len < 0) := by omega
  have h2 : ¬ (ev.len < 18) := by omega
  have h3 : hd.sample_count ≠ 0 := by omega
  simp [bp5_binmode_fala_receive_data, dev_acquisition_start, hp, h0, h1, h2, h3, ha, hw,
    g_try_malloc]

theorem store_offset_eq (d : dev_context) (hu : d.logic_unitsize = 1)
    (hl : d.limit_samples ≤ 2 ^ 31) (hn : d.num_samples < d.limit_samples) :
    store_offset d = ((d.limit_samples - d.num_samples - 1 : Nat) : Int) := by
  simp only [store_offset, hu, to_int, to_uint64]
  have h1 : (d.num_samples + 1) % 2 ^ 64 = d.num_samples + 1 := Nat.mod_eq_of_lt (by omega)
  rw [h1]
  push_cast
  omega

theorem put_samples_buf (bs : List Char) (d : dev_context) (cells : List Nat) (lv : Bool)
    (hb : d.raw_sample_buf = some ⟨cells, lv⟩) (hu : d.logic_unitsize = 1)
    (hl : d.limit_samples ≤ 2 ^ 31) (hn : d.num_samples + bs.length ≤ d.limit_samples)
    (hc : cells.length = d.limit_samples) :
    (put_samples d bs).raw_sample_buf =
      some ⟨cells.take (d.limit_samples - d.num_samples - bs.length)
        ++ (bs.map sample_of).reverse ++ cells.drop (d.limit_samples - d.num_samples), lv⟩ := by
  induction bs generalizing d cells with
  | nil => simp [put_samples, hb]
  | cons x xs ih =>
    simp only [List.length_cons] at hn
    have hoff := store_offset_eq d hu hl (by omega)
    have h1 : (d.num_samples + 1) % 2 ^ 64 = d.num_samples + 1 := Nat.mod_eq_of_lt (by omega)
    have hk : d.limit_samples - d.num_samples - 1 < cells.length := by omega
    have hb' : (put_sample d x).raw_sample_buf
        = some ⟨cells.set (d.limit_samples - d.num_samples - 1) (sample_of x), lv⟩ := by
      simp only [put_sample, hb, buf_store, hoff, Option.map_some']
      rw [if_pos ⟨by omega, by omega⟩]
      simp
    have := ih (put_sample d x) _ hb' hu (by rw [put_sample_limit]; exact hl)
      (by rw [put_sample_num, h1, put_sample_limit]; omega)
      (by rw [List.length_set, put_sample_limit]; exact hc)
    rw [put_samples, this, put_sample_limit, put_sample_num, h1]
    have e1 : d.limit_samples - (d.num_samples + 1) - xs.length
        = d.limit_samples - d.num_samples - (xs.length + 1) := by omega
    have e2 : d.limit_samples - (d.num_samples + 1) = d.limit_samples - d.num_samples - 1 := by
      omega
    have e3 : d.limit_samples - d.num_samples = d.limit_samples - d.num_samples - 1 + 1 := by
      omega
    rw [e1, e2]
    generalize hkk : d.limit_samples - d.num_samples - 1 = k at hk e3 ⊢
    rw [e3]

    have hset : cells.set k (sample_of x) = cells.take k ++ sample_of x :: cells.drop (k + 1) := by
      rw [List.set_eq_take_append_cons_drop, if_pos hk]
    have hlen : (cells.take k).length = k := by
      rw [List.length_take]; omega
    have hmin : min (k + 1 - (xs.length + 1)) k = k + 1 - (x :: xs).length := by
      simp only [List.length_cons]; omega
    rw [hset, List.take_append_of_le_length (by omega), List.take_take, hmin,
      List.drop_left' hlen]
    simp

theorem to_uint32_lt (v : Int) : to_uint32 v < 2 ^ 32 := by
  unfold to_uint32
  omega

theorem parse_header_success_form (buf : List Char) (hd : fala_header)
    (h : (parse_header buf hd).1 = true) :
    ∃ b1 b2 b3 b4 b5 b6 b7, (parse_header buf hd).2 =
      ⟨to_uint32 (atoi b1), to_uint32 (atoi b2), to_uint32 (atoi b3), decide (deref b4 = 'Y'),
        to_uint32 (atoi b5), to_uint32 (atoi b6), to_uint32 (atoi b7)⟩ := by
  revert h
  unfold parse_header
  generalize strncmp buf "$FALADATA".toList 9 = c
  generalize buf.drop 9 = b0
  by_cases h0 : c = 0
  · subst h0
    simp only [ne_eq, not_true_eq_false, if_false]
    rcases h1 : next_field b0 with ⟨o1, b1⟩
    cases o1
    · simp
    dsimp only
    rcases h2 : next_field b1 with ⟨o2, b2⟩
    cases o2
    · simp
    dsimp only
    rcases h3 : next_field b2 with ⟨o3, b3⟩
    cases o3
    · simp
    dsimp only
    rcases h4 : next_field b3 with ⟨o4, b4⟩
    cases o4
    · simp
    dsimp only
    rcases h5 : next_field b4 with ⟨o5, b5⟩
    cases o5
    · simp
    dsimp only
    rcases h6 : next_field b5 with ⟨o6, b6⟩
    cases o6
    · simp
    dsimp only
    rcases h7 : next_field b6 with ⟨o7, b7⟩
    cases o7
    · simp
    dsimp only
    intro _
    exact ⟨b1, b2, b3, b4, b5, b6, b7, rfl⟩
  · simp [h0]

theorem parse_header_bounds (buf : List Char) (hd0 hd : fala_header)
    (h : parse_header buf hd0 = (true, hd)) :
    hd.n_channels < 2 ^ 32 ∧ hd.trigger_channel_mask < 2 ^ 32 ∧ hd.trigger_mask < 2 ^ 32 ∧
    hd.sample_rate < 2 ^ 32 ∧ hd.sample_count < 2 ^ 32 ∧
    hd.before_trigger_sample_count < 2 ^ 32 := by
  obtain ⟨b1, b2, b3, b4, b5, b6, b7, hf⟩ := parse_header_success_form buf hd0 (by rw [h])
  rw [h] at hf
  simp only at hf
  subst hf
  exact ⟨to_uint32_lt _, to_uint32_lt _, to_uint32_lt _, to_uint32_lt _, to_uint32_lt _,
    to_uint32_lt _⟩

theorem put_samples_frame (d : dev_context) (bs : List Char) :
    put_samples d bs = { d with num_samples := (put_samples d bs).num_samples,
                                raw_sample_buf := (put_samples d bs).raw_sample_buf } := by
  induction bs generalizing d with
  | nil => rfl
  | cons x xs ih =>
    rw [put_samples]
    have := ih (put_sample d x)
    rw [this]
    rfl

theorem header_step_start (devc : dev_context) (ev : read_event) (hd : fala_header)
    (hv : valid_header_event ev hd) (hn : 1 ≤ hd.sample_count) :
    bp5_binmode_fala_receive_data (dev_acquisition_start devc).1 G_IO_IN ev =
      ⟨cycle_start hd ev, true,
       [effect.serial_read 1024 10, effect.malloc hd.sample_count, effect.frame_begin,
        effect.meta_samplerate hd.sample_rate, effect.serial_write ['+'] 100]⟩ :=
  header_step devc ev hd hv hn

theorem cycle_run (devc : dev_context) (ev : read_event) (hd : fala_header)
    (cs : List (List Char)) (hv : valid_header_event ev hd) (hn : 1 ≤ hd.sample_count)
    (hlen : cs.flatten.length = hd.sample_count) (hev : cs.length < 2 ^ 32) :
    (receive_events (dev_acquisition_start devc).1 (ev :: cs.map chunk_event)).1
      = (emit_capture (put_samples (cycle_start hd ev) cs.flatten)).1 ∧
    without_reads (receive_events (dev_acquisition_start devc).1 (ev :: cs.map chunk_event)).2
      = [effect.malloc hd.sample_count, effect.frame_begin,
          effect.meta_samplerate hd.sample_rate, effect.serial_write ['+'] 100]
        ++ (stores (cycle_start hd ev) cs.flatten
        ++ (emit_capture (put_samples (cycle_start hd ev) cs.flatten)).2) := by
  have hb := (parse_header_bounds _ _ _ hv.2.1).2.2.2.2.1
  have hpos : cs.flatten ≠ [] := by
    intro h
    rw [h] at hlen
    simp at hlen
    omega
  have hr := run_total cs (cycle_start hd ev) (by simp [cycle_start])
    (by simp only [cycle_start]; omega)
    (by simp only [cycle_start]; omega)
    (by simp only [cycle_start]; omega) hpos
  simp only [receive_events, header_step_start devc ev hd hv hn]
  refine ⟨hr.1, ?_⟩
  rw [without_reads_append, hr.2]
  rfl

theorem emit_arith (p n : Nat) (hp : p ≤ n) (hl : n < 2 ^ 31) :
    to_int (p : Int) = p ∧ to_uint64 (((p : Int)) * (1 : Nat)) = p ∧
    to_uint64 (((n : Int) - n) * (1 : Nat)) = 0 ∧
    to_uint64 (((n : Int) - (p : Int)) * (1 : Nat)) = n - p ∧
    to_uint64 (((p : Int) + n - n) * (1 : Nat)) = p := by
  simp only [to_int, to_uint64]
  refine ⟨?_, ?_, ?_, ?_, ?_⟩ <;> omega

theorem emit_capture_trace (d : dev_context) (cells : List Nat) (lv : Bool)
    (hb : d.raw_sample_buf = some ⟨cells, lv⟩) (hu : d.logic_unitsize = 1)
    (hfull : d.num_samples = d.limit_samples) (hl : d.limit_samples < 2 ^ 31)
    (hc : cells.length = d.limit_samples) :
    (emit_capture d).2 =
      (if d.trigger_channel_mask ≠ 0 then
        (if min d.before_trigger_sample_count d.limit_samples ≠ 0 then
          [effect.logic 0 (min d.before_trigger_sample_count d.limit_samples) 1
            (cells.take (min d.before_trigger_sample_count d.limit_samples))]
        else []) ++ [effect.trigger]
      else []) ++
      [effect.logic (min d.before_trigger_sample_count d.limit_samples)
          (d.limit_samples - min d.before_trigger_sample_count d.limit_samples) 1
          (cells.drop (min d.before_trigger_sample_count d.limit_samples)),
        effect.free, effect.frame_end, effect.serial_flush] := by
  obtain ⟨a1, a2, a3, a4, a5⟩ := emit_arith (min d.before_trigger_sample_count d.limit_samples)
    d.limit_samples (Nat.min_le_right _ _) hl
  have hz : ((min d.before_trigger_sample_count d.limit_samples : Nat) : Int) ≠ 0 ↔
      min d.before_trigger_sample_count d.limit_samples ≠ 0 := by
    constructor <;> intro h <;> omega
  have hv : ((cells.drop (min d.before_trigger_sample_count d.limit_samples)).take
      (d.limit_samples - min d.before_trigger_sample_count d.limit_samples))
      = cells.drop (min d.before_trigger_sample_count d.limit_samples) :=
    List.take_of_length_le (by rw [List.length_drop]; omega)
  simp only [emit_capture, hfull, hu, a1, a2, a3, a4, a5, hz, hb, buf_view, List.drop_zero, hv]
  simp

theorem cycle_buffer (hd : fala_header) (ev : read_event) (bs : List Char)
    (hlen : bs.length = hd.sample_count) (hb : hd.sample_count ≤ 2 ^ 31) :
    (put_samples (cycle_start hd ev) bs).raw_sample_buf
      = some ⟨(bs.map sample_of).reverse, true⟩ := by
  have h := put_samples_buf bs (cycle_start hd ev) _ true rfl rfl hb
    (by simp only [cycle_start]; omega) (by simp [cycle_start])
  rw [h]
  simp only [cycle_start, Nat.sub_zero, hlen, Nat.sub_self, List.take_zero, List.nil_append]
  rw [List.drop_eq_nil_of_le (by simp)]
  simp

theorem emit_capture_buf (d : dev_context) :
    (emit_capture d).1.raw_sample_buf = g_free d.raw_sample_buf ∧
    (emit_capture d).1.num_samples = 0 ∧ (emit_capture d).1.num_transfers = 0 :=
  ⟨rfl, rfl, rfl⟩

theorem datafeed_append (a b : List effect) : datafeed (a ++ b) = datafeed a ++ datafeed b := by
  simp [datafeed]

theorem datafeed_without_reads (tr : List effect) : datafeed (without_reads tr) = datafeed tr := by
  simp only [datafeed, without_reads, List.filter_filter]
  congr 1
  funext e
  cases e <;> rfl

theorem datafeed_stores (d : dev_context) (bs : List Char) : datafeed (stores d bs) = [] := by
  apply List.filter_eq_nil_iff.2
  intro e he
  obtain ⟨o, v, rfl⟩ := mem_stores d bs e he
  simp [is_datafeed]

theorem cycle_fields (hd : fala_header) (ev : read_event) (bs : List Char)
    (hlen : bs.length = hd.sample_count) (hb : hd.sample_count < 2 ^ 64) :
    (put_samples (cycle_start hd ev) bs).num_samples = hd.sample_count ∧
    (put_samples (cycle_start hd ev) bs).limit_samples = hd.sample_count ∧
    (put_samples (cycle_start hd ev) bs).logic_unitsize = 1 ∧
    (put_samples (cycle_start hd ev) bs).before_trigger_sample_count
      = hd.before_trigger_sample_count ∧
    (put_samples (cycle_start hd ev) bs).trigger_channel_mask = hd.trigger_channel_mask := by
  have hnum := put_samples_num (cycle_start hd ev) bs (by simp only [cycle_start]; omega)
  refine ⟨by rw [hnum]; simp [cycle_start, hlen], ?_, ?_, ?_, ?_⟩ <;>
    (rw [put_samples_frame]; rfl)

theorem cycle_emit (hd : fala_header) (ev : read_event) (bs : List Char)
    (hlen : bs.length = hd.sample_count) (hb : hd.sample_count < 2 ^ 31) :
    (emit_capture (put_samples (cycle_start hd ev) bs)).2 =
      (if hd.trigger_channel_mask ≠ 0 then
        (if min hd.before_trigger_sample_count hd.sample_count ≠ 0 then
          [effect.logic 0 (min hd.before_trigger_sample_count hd.sample_count) 1
            ((bs.map sample_of).reverse.take
              (min hd.before_trigger_sample_count hd.sample_count))]
        else []) ++ [effect.trigger]
      else []) ++
      [effect.logic (min hd.before_trigger_sample_count hd.sample_count)
          (hd.sample_count - min hd.before_trigger_sample_count hd.sample_count) 1
          ((bs.map sample_of).reverse.drop
            (min hd.before_trigger_sample_count hd.sample_count)),
        effect.free, effect.frame_end, effect.serial_flush] := by
  obtain ⟨f1, f2, f3, f4, f5⟩ := cycle_fields hd ev bs hlen (by omega)
  have h := emit_capture_trace (put_samples (cycle_start hd ev) bs) _ true
    (cycle_buffer hd ev bs hlen (by omega)) f3 (by rw [f1, f2]) (by rw [f2]; exact hb)
    (by rw [f2]; simp [hlen])
  rw [h, f2, f4, f5]

theorem cycle_datafeed (devc : dev_context) (ev : read_event) (hd : fala_header)
    (cs : List (List Char)) (hv : valid_header_event ev hd) (hn : 1 ≤ hd.sample_count)
    (hb : hd.sample_count < 2 ^ 31) (hlen : cs.flatten.length = hd.sample_count)
    (hev : cs.length < 2 ^ 32) :
    datafeed (receive_events (dev_acquisition_start devc).1 (ev :: cs.map chunk_event)).2 =
      [effect.frame_begin, effect.meta_samplerate hd.sample_rate] ++
      ((if hd.trigger_channel_mask ≠ 0 then
        (if min hd.before_trigger_sample_count hd.sample_count ≠ 0 then
          [effect.logic 0 (min hd.before_trigger_sample_count hd.sample_count) 1
            ((cs.flatten.map sample_of).reverse.take
              (min hd.before_trigger_sample_count hd.sample_count))]
        else []) ++ [effect.trigger]
      else []) ++
      [effect.logic (min hd.before_trigger_sample_count hd.sample_count)
          (hd.sample_count - min hd.before_trigger_sample_count hd.sample_count) 1
          ((cs.flatten.map sample_of).reverse.drop
            (min hd.before_trigger_sample_count hd.sample_count)),
        effect.frame_end]) := by
  rw [← datafeed_without_reads, (cycle_run devc ev hd cs hv hn hlen hev).2, datafeed_append,
    datafeed_append, datafeed_stores, cycle_emit hd ev cs.flatten hlen hb]
  simp only [datafeed]
  split_ifs <;> simp [is_datafeed]

theorem header_path (d : dev_context) (h0 : d.num_transfers = 0) (nxt : read_event) :
    (∀ o v, effect.store o v ∉ (bp5_binmode_fala_receive_data d G_IO_IN nxt).trace) ∧
    (bp5_binmode_fala_receive_data d G_IO_IN nxt).devc.num_samples = d.num_samples ∧
    ((bp5_binmode_fala_receive_data d G_IO_IN nxt).ret = true →
      nxt.len = 0 ∨ (18 ≤ nxt.len ∧ (parse_header nxt.read_buffer hd_uninit).1 = true)) ∧
    (18 ≤ nxt.len → (parse_header nxt.read_buffer hd_uninit).1 = true →
      (bp5_binmode_fala_receive_data d G_IO_IN nxt).devc.limit_samples
        = (parse_header nxt.read_buffer hd_uninit).2.sample_count) := by
  simp only [bp5_binmode_fala_receive_data, h0, if_true]
  refine ⟨?_, ?_, ?_, ?_⟩
  · intro o v
    split_ifs <;> simp
  · split_ifs <;> rfl
  · split_ifs <;> simp_all
  · intro h18 hp
    have h1 : nxt.len ≠ 0 := by omega
    have h2 : ¬ (nxt.len < 0 ∨ nxt.len < 18 ∨ (parse_header nxt.read_buffer hd_uninit).1 = false) := by
      simp [hp]; omega
    simp only [h1, h2, if_false]
    split_ifs <;> rfl

theorem spans_append (a b : List effect) :
    (a ++ b).filterMap logic_span = a.filterMap logic_span ++ b.filterMap logic_span := by
  simp

theorem spans_without_reads (tr : List effect) :
    (without_reads tr).filterMap logic_span = tr.filterMap logic_span := by
  induction tr with
  | nil => rfl
  | cons e tr ih =>
    cases e <;> simp_all [without_reads, is_read, logic_span]

theorem spans_stores (d : dev_context) (bs : List Char) :
    (stores d bs).filterMap logic_span = [] := by
  apply List.filterMap_eq_nil_iff.2
  intro e he
  obtain ⟨o, v, rfl⟩ := mem_stores d bs e he
  rfl

theorem cycle_spans (devc : dev_context) (ev : read_event) (hd : fala_header)
    (cs : List (List Char)) (hv : valid_header_event ev hd) (hn : 1 ≤ hd.sample_count)
    (hlen : cs.flatten.length = hd.sample_count) (hev : cs.length < 2 ^ 32) :
    (receive_events (dev_acquisition_start devc).1
        (ev :: cs.map chunk_event)).2.filterMap logic_span =
      (if hd.trigger_channel_mask ≠ 0 ∧
          to_int (min hd.before_trigger_sample_count hd.sample_count : Nat) ≠ 0 then
        [(0, to_uint64 (to_int (min hd.before_trigger_sample_count hd.sample_count : Nat)))]
      else []) ++
      [(to_uint64 (to_int (min hd.before_trigger_sample_count hd.sample_count : Nat)),
        to_uint64 ((hd.sample_count : Int)
          - to_int (min hd.before_trigger_sample_count hd.sample_count : Nat)))] := by
  have hb := (parse_header_bounds _ _ _ hv.2.1).2.2.2.2.1
  obtain ⟨f1, f2, f3, f4, f5⟩ := cycle_fields hd ev cs.flatten hlen (by omega)
  rw [← spans_without_reads, (cycle_run devc ev hd cs hv hn hlen hev).2, spans_append,
    spans_append, spans_stores]
  simp only [emit_capture, f1, f2, f3, f4, f5]
  have e0 : to_uint64 (((hd.sample_count : Int) - hd.sample_count) * (1 : Nat)) = 0 := by
    simp [to_uint64]
  simp only [e0, Nat.cast_one, mul_one, add_sub_cancel_right]
  split_ifs <;> simp_all [logic_span]

theorem flatten_replicate_length (k : Nat) (c : List Char) :
    (List.replicate k c).flatten.length = k * c.length := by
  induction k with
  | zero => simp
  | succ k ih => simp [List.replicate_succ, ih]; ring

/-! ## One capture cycle: reassembly and emission -/

/-- Counterexample to C4: in the scenario of the specification (header for 4 samples
with 1 pre-trigger sample, then the bytes 1, 2, 3, 4) the buffer at completion is
4, 3, 2, 1 and not 1, 2, 3, 4; the pre-trigger packet carries the byte 4 and the
post-trigger packet the bytes 3, 2, 1. -/
theorem reassembly_scenario_reversed :
    (receive_events (dev_acquisition_start zeroed_context).1
      [chunk_event "$FALADATA;2;3;1;Y;1000000;4;1;".toList,
       chunk_event (bytes [1, 2, 3, 4])]).1.raw_sample_buf
      = some ⟨[4, 3, 2, 1], false⟩ ∧
    datafeed (receive_events (dev_acquisition_start zeroed_context).1
      [chunk_event "$FALADATA;2;3;1;Y;1000000;4;1;".toList,
       chunk_event (bytes [1, 2, 3, 4])]).2
      = [effect.frame_begin, effect.meta_samplerate 1000000, effect.logic 0 1 1 [4],
         effect.trigger, effect.logic 1 3 1 [3, 2, 1], effect.frame_end] ∧
    (receive_events (dev_acquisition_start zeroed_context).1
      [chunk_event "$FALADATA;2;3;1;Y;1000000;4;1;".toList,
       chunk_event (bytes [1, 2, 3, 4])]).1.raw_sample_buf
      ≠ some ⟨[1, 2, 3, 4], false⟩ := by
  decide

/-- C4, amended. Reassembly in reverse arrival order: for a valid header with
`sample_count = n`, `1 ≤ n ≤ 2^31`, and every sequence of fewer than 2^32 read events
whose chunks total exactly `n` bytes, the capture buffer at completion holds the bytes in
the reverse of their arrival order: index `i` holds the byte that arrived at position
`n - 1 - i` (index 0 the last byte received, index `n - 1` the first). -/
theorem reassembly_reversed (devc : dev_context) (ev : read_event) (hd : fala_header)
    (cs : List (List Char)) (hv : valid_header_event ev hd) (hn : 1 ≤ hd.sample_count)
    (hb : hd.sample_count ≤ 2 ^ 31) (hlen : cs.flatten.length = hd.sample_count)
    (hev : cs.length < 2 ^ 32) :
    (receive_events (dev_acquisition_start devc).1
        (ev :: cs.map chunk_event)).1.raw_sample_buf
      = some ⟨(cs.flatten.map sample_of).reverse, false⟩ ∧
    ∀ i, i < hd.sample_count →
      ((cs.flatten.map sample_of).reverse)[i]?
        = (cs.flatten.map sample_of)[hd.sample_count - 1 - i]? := by
  constructor
  · rw [(cycle_run devc ev hd cs hv hn hlen hev).1, (emit_capture_buf _).1,
      cycle_buffer hd ev cs.flatten hlen hb]
    rfl
  · intro i hi
    generalize cs.flatten = bs at hlen
    rw [List.getElem?_reverse (by rw [List.length_map, hlen]; exact hi), List.length_map, hlen]

/-- Witness of C4, amended: the scenario of the specification, its four bytes delivered
by the read events 1 / 2, 3 / nothing / 4. -/
theorem reassembly_reversed_witness :
    valid_header_event (chunk_event "$FALADATA;2;3;1;Y;1000000;4;1;".toList)
      ⟨2, 3, 1, true, 1000000, 4, 1⟩ ∧
    (receive_events (dev_acquisition_start zeroed_context).1
      (chunk_event "$FALADATA;2;3;1;Y;1000000;4;1;".toList ::
        [bytes [1], bytes [2, 3], [], bytes [4]].map chunk_event)).1.raw_sample_buf
      = some ⟨[4, 3, 2, 1], false⟩ :=
  ⟨by decide,
    (reassembly_reversed zeroed_context (chunk_event "$FALADATA;2;3;1;Y;1000000;4;1;".toList)
      ⟨2, 3, 1, true, 1000000, 4, 1⟩ [bytes [1], bytes [2, 3], [], bytes [4]]
      (by decide) (by decide) (by decide) (by decide) (by decide)).1⟩

/-- C5. Chunk-boundary independence: for a valid header and a byte sequence of length
`sample_count`, any two ways of splitting it into non-empty chunks of at most 1024 bytes
leave the same device context (so the same buffer content) and send the same datafeed
items with the same payloads in the same order; the effects of the two runs differ only
in the calls that read the serial port. -/
theorem chunk_boundary_independence (devc : dev_context) (ev : read_event) (hd : fala_header)
    (bytes : List Char) (cs1 cs2 : List (List Char))
    (hv : valid_header_event ev hd) (hn : 1 ≤ hd.sample_count)
    (hlen : bytes.length = hd.sample_count)
    (h1 : cs1.flatten = bytes) (h2 : cs2.flatten = bytes)
    (hc1 : ∀ c ∈ cs1, c ≠ [] ∧ c.length ≤ 1024) (hc2 : ∀ c ∈ cs2, c ≠ [] ∧ c.length ≤ 1024) :
    (receive_events (dev_acquisition_start devc).1 (ev :: cs1.map chunk_event)).1
      = (receive_events (dev_acquisition_start devc).1 (ev :: cs2.map chunk_event)).1 ∧
    datafeed (receive_events (dev_acquisition_start devc).1 (ev :: cs1.map chunk_event)).2
      = datafeed (receive_events (dev_acquisition_start devc).1 (ev :: cs2.map chunk_event)).2 ∧
    without_reads (receive_events (dev_acquisition_start devc).1 (ev :: cs1.map chunk_event)).2
      = without_reads
          (receive_events (dev_acquisition_start devc).1 (ev :: cs2.map chunk_event)).2 := by
  have hb := (parse_header_bounds _ _ _ hv.2.1).2.2.2.2.1
  have hcount : ∀ cs : List (List Char), (∀ c ∈ cs, c ≠ [] ∧ c.length ≤ 1024) →
      cs.length ≤ cs.flatten.length := by
    intro cs
    induction cs with
    | nil => simp
    | cons c cs ih =>
      intro h
      have hc := (h c (by simp)).1
      have := ih (fun c' hc' => h c' (by simp [hc']))
      have hpos : 0 < c.length := List.length_pos.2 hc
      simp only [List.length_cons, List.flatten_cons, List.length_append]
      omega
  have e1 := cycle_run devc ev hd cs1 hv hn (by rw [h1]; exact hlen)
    (by have := hcount cs1 hc1; rw [h1, hlen] at this; omega)
  have e2 := cycle_run devc ev hd cs2 hv hn (by rw [h2]; exact hlen)
    (by have := hcount cs2 hc2; rw [h2, hlen] at this; omega)
  have hw : without_reads
      (receive_events (dev_acquisition_start devc).1 (ev :: cs1.map chunk_event)).2
      = without_reads
          (receive_events (dev_acquisition_start devc).1 (ev :: cs2.map chunk_event)).2 := by
    rw [e1.2, e2.2, h1, h2]
  refine ⟨by rw [e1.1, e2.1, h1, h2], ?_, hw⟩
  rw [← datafeed_without_reads, hw, datafeed_without_reads]

/-- Witness of C5: the bytes 1, 2, 3, 4 as four chunks of one byte and as one chunk. -/
theorem chunk_boundary_independence_witness :
    valid_header_event (chunk_event "$FALADATA;2;3;1;Y;1000000;4;1;".toList)
      ⟨2, 3, 1, true, 1000000, 4, 1⟩ ∧
    datafeed (receive_events (dev_acquisition_start zeroed_context).1
      (chunk_event "$FALADATA;2;3;1;Y;1000000;4;1;".toList ::
        [bytes [1], bytes [2], bytes [3], bytes [4]].map chunk_event)).2
      = datafeed (receive_events (dev_acquisition_start zeroed_context).1
      (chunk_event "$FALADATA;2;3;1;Y;1000000;4;1;".toList ::
        [bytes [1, 2, 3, 4]].map chunk_event)).2 :=
  ⟨by decide,
    (chunk_boundary_independence zeroed_context
      (chunk_event "$FALADATA;2;3;1;Y;1000000;4;1;".toList) ⟨2, 3, 1, true, 1000000, 4, 1⟩
      (bytes [1, 2, 3, 4]) [bytes [1], bytes [2], bytes [3], bytes [4]] [bytes [1, 2, 3, 4]]
      (by decide) (by decide) (by decide) (by decide) (by decide) (by decide)
      (by decide)).2.1⟩

/-- Counterexample to C6: for the header of the specification with no trigger mask,
1000 samples and 200 pre-trigger samples, the only logic packet starts at offset 200 and
has length 800; it does not cover the whole buffer. -/
theorem no_trigger_drops_pre_trigger_samples :
    (receive_events (dev_acquisition_start zeroed_context).1
      (chunk_event "$FALADATA;8;0;0;N;8000000;1000;200;".toList ::
        (List.replicate 1 (List.replicate 1000 'a')).map chunk_event)).2.filterMap logic_span
      = [(200, 800)] ∧
    (receive_events (dev_acquisition_start zeroed_context).1
      (chunk_event "$FALADATA;8;0;0;N;8000000;1000;200;".toList ::
        (List.replicate 1 (List.replicate 1000 'a')).map chunk_event)).2.filterMap logic_span
      ≠ [(0, 1000)] := by
  rw [cycle_spans zeroed_context _ ⟨8, 0, 0, false, 8000000, 1000, 200⟩ _
    (by decide) (by decide) (by rw [flatten_replicate_length, List.length_replicate])
    (by rw [List.length_replicate]; decide)]
  decide

/-- C6, amended. No-trigger emission: for a completed cycle whose header has
`trigger_channel_mask = 0` and `sample_count < 2^31`, with
`pre = min(pre_trigger_count, sample_count)`, the cycle sends frame-begin, the sample
rate, exactly one logic packet, which starts at buffer offset `pre` and has length
`sample_count - pre` (the whole buffer exactly when `pre_trigger_count = 0`), no trigger
marker, and then the frame-end marker. -/
theorem no_trigger_emission (devc : dev_context) (ev : read_event) (hd : fala_header)
    (cs : List (List Char)) (hv : valid_header_event ev hd) (hn : 1 ≤ hd.sample_count)
    (hb : hd.sample_count < 2 ^ 31) (hlen : cs.flatten.length = hd.sample_count)
    (hev : cs.length < 2 ^ 32) (hmask : hd.trigger_channel_mask = 0) :
    datafeed (receive_events (dev_acquisition_start devc).1 (ev :: cs.map chunk_event)).2 =
      [effect.frame_begin, effect.meta_samplerate hd.sample_rate,
       effect.logic (min hd.before_trigger_sample_count hd.sample_count)
          (hd.sample_count - min hd.before_trigger_sample_count hd.sample_count) 1
          ((cs.flatten.map sample_of).reverse.drop
            (min hd.before_trigger_sample_count hd.sample_count)),
       effect.frame_end] := by
  rw [cycle_datafeed devc ev hd cs hv hn hb hlen hev, hmask]
  simp

/-- Witness of C6, amended: 4 samples, 1 pre-trigger sample, no trigger mask. -/
theorem no_trigger_emission_witness :
    valid_header_event (chunk_event "$FALADATA;8;0;0;N;8000000;4;1;".toList)
      ⟨8, 0, 0, false, 8000000, 4, 1⟩ ∧
    datafeed (receive_events (dev_acquisition_start zeroed_context).1
      (chunk_event "$FALADATA;8;0;0;N;8000000;4;1;".toList ::
        [bytes [1, 2], bytes [3, 4]].map chunk_event)).2
      = [effect.frame_begin, effect.meta_samplerate 8000000, effect.logic 1 3 1 [3, 2, 1],
         effect.frame_end] :=
  ⟨by decide,
    (no_trigger_emission zeroed_context (chunk_event "$FALADATA;8;0;0;N;8000000;4;1;".toList)
      ⟨8, 0, 0, false, 8000000, 4, 1⟩ [bytes [1, 2], bytes [3, 4]]
      (by decide) (by decide) (by decide) (by decide) (by decide) (by decide)).trans
      (by decide)⟩

/-- The emission of a triggered cycle whose `sample_count` is below 2^31: the
pre-trigger packet at offset 0 of length `pre = min(pre_trigger_count, sample_count)`,
the trigger marker, the packet at offset `pre` of length `sample_count - pre`, and the
frame end. -/
theorem triggered_emission_below_int_max (devc : dev_context) (ev : read_event)
    (hd : fala_header) (cs : List (List Char)) (hv : valid_header_event ev hd)
    (hn : 1 ≤ hd.sample_count) (hb : hd.sample_count < 2 ^ 31)
    (hlen : cs.flatten.length = hd.sample_count) (hev : cs.length < 2 ^ 32)
    (hmask : hd.trigger_channel_mask ≠ 0) (hpre : 0 < hd.before_trigger_sample_count) :
    datafeed (receive_events (dev_acquisition_start devc).1 (ev :: cs.map chunk_event)).2 =
      [effect.frame_begin, effect.meta_samplerate hd.sample_rate,
       effect.logic 0 (min hd.before_trigger_sample_count hd.sample_count) 1
          ((cs.flatten.map sample_of).reverse.take
            (min hd.before_trigger_sample_count hd.sample_count)),
       effect.trigger,
       effect.logic (min hd.before_trigger_sample_count hd.sample_count)
          (hd.sample_count - min hd.before_trigger_sample_count hd.sample_count) 1
          ((cs.flatten.map sample_of).reverse.drop
            (min hd.before_trigger_sample_count hd.sample_count)),
       effect.frame_end] := by
  have hp : min hd.before_trigger_sample_count hd.sample_count ≠ 0 := by omega
  rw [cycle_datafeed devc ev hd cs hv hn hb hlen hev, if_pos hmask, if_pos hp]
  simp

/-- C7, the code at the failing input: for a header with `sample_count = 2^31`,
`pre_trigger_count = 2^31` and a trigger mask, followed by the 2^31 sample bytes in
chunks of 1024, the `int` that holds the pre-trigger count is -2^31, so the first logic
packet has length 2^64 - 2^31 and the second has offset 2^64 - 2^31 and length 2^32. -/
theorem triggered_emission_int_wrap :
    (receive_events (dev_acquisition_start zeroed_context).1
      (chunk_event "$FALADATA;8;1;1;N;1000000;2147483648;2147483648;".toList ::
        (List.replicate 2097152 (List.replicate 1024 'a')).map chunk_event)).2.filterMap
        logic_span
      = [(0, 18446744071562067968), (18446744071562067968, 4294967296)] := by
  rw [cycle_spans zeroed_context _ ⟨8, 1, 1, false, 1000000, 2147483648, 2147483648⟩ _
    (by decide) (by decide) (by rw [flatten_replicate_length, List.length_replicate])
    (by rw [List.length_replicate]; decide)]
  decide

/-- The clamp of the pre-trigger count for a cycle whose `sample_count` is below 2^31 and
not above `pre_trigger_count`: the pre-trigger packet (sent when a trigger mask is set)
covers the whole buffer and the packet after it starts at offset `sample_count` and has
length 0. -/
theorem pre_trigger_clamp_below_int_max (devc : dev_context) (ev : read_event)
    (hd : fala_header) (cs : List (List Char)) (hv : valid_header_event ev hd)
    (hn : 1 ≤ hd.sample_count) (hb : hd.sample_count < 2 ^ 31)
    (hlen : cs.flatten.length = hd.sample_count) (hev : cs.length < 2 ^ 32)
    (hpre : hd.sample_count ≤ hd.before_trigger_sample_count) :
    (receive_events (dev_acquisition_start devc).1
        (ev :: cs.map chunk_event)).2.filterMap logic_span =
      (if hd.trigger_channel_mask ≠ 0 then [(0, hd.sample_count)] else []) ++
        [(hd.sample_count, 0)] := by
  have hmin : min hd.before_trigger_sample_count hd.sample_count = hd.sample_count :=
    Nat.min_eq_right hpre
  have h1 : to_int (hd.sample_count : Int) = hd.sample_count := by
    simp only [to_int]; omega
  have h2 : to_uint64 (hd.sample_count : Int) = hd.sample_count := by
    simp only [to_uint64]; omega
  have h3 : (hd.sample_count : Int) ≠ 0 := by omega
  rw [cycle_spans devc ev hd cs hv hn hlen hev, hmin, h1, h2]
  simp [h3, to_uint64]

/-- C8, the code at the failing input: for a header with `sample_count = 2^31`,
`pre_trigger_count = 4294967295` and no trigger mask, followed by the 2^31 sample bytes,
the pre-trigger count used is -2^31 instead of `sample_count`, and the logic packet has
offset 2^64 - 2^31 and length 2^32 instead of length 0. -/
theorem pre_trigger_clamp_int_wrap :
    to_int (min 4294967295 2147483648 : Nat) = -2147483648 ∧
    (receive_events (dev_acquisition_start zeroed_context).1
      (chunk_event "$FALADATA;8;0;0;N;1000000;2147483648;4294967295;".toList ::
        (List.replicate 2097152 (List.replicate 1024 'a')).map chunk_event)).2.filterMap
        logic_span
      = [(18446744071562067968, 4294967296)] := by
  rw [cycle_spans zeroed_context _ ⟨8, 0, 0, false, 1000000, 2147483648, 4294967295⟩ _
    (by decide) (by decide) (by rw [flatten_replicate_length, List.length_replicate])
    (by rw [List.length_replicate]; decide)]
  decide

/-- C9, the code at the failing input: for a header with `sample_count = 2` followed
by one read event of the three bytes 1, 2, 3, the handler completes the cycle at the
second byte (packet, `g_free`, frame end, flush) and then goes on with the loop: it
counts the third byte and stores it at offset 1 of the buffer it has freed, so that
`num_samples` is 1 after the event; with the chunk cut to two bytes it is 0. -/
theorem excess_bytes_stored_after_free :
    (receive_events (dev_acquisition_start zeroed_context).1
      [chunk_event "$FALADATA;8;0;0;N;1000000;2;0;".toList,
       chunk_event (bytes [1, 2, 3])]).1.num_samples = 1 ∧
    without_reads (receive_events (dev_acquisition_start zeroed_context).1
      [chunk_event "$FALADATA;8;0;0;N;1000000;2;0;".toList,
       chunk_event (bytes [1, 2, 3])]).2
      = [effect.malloc 2, effect.frame_begin, effect.meta_samplerate 1000000,
         effect.serial_write ['+'] 100, effect.store 1 1, effect.store 0 2,
         effect.logic 0 2 1 [2, 1], effect.free, effect.frame_end, effect.serial_flush,
         effect.store 1 3] ∧
    (receive_events (dev_acquisition_start zeroed_context).1
      [chunk_event "$FALADATA;8;0;0;N;1000000;2;0;".toList,
       chunk_event (bytes [1, 2])]).1.num_samples = 0 := by
  decide

/-- C10. Cycle reset: for a valid header and every sequence of fewer than 2^32 read
events (in particular every sequence of non-empty chunks) whose chunks total exactly
`sample_count` bytes, the session ends with `num_transfers = 0` and `num_samples = 0`,
and the next read event `nxt` takes the header path: it stores no sample and counts
none, it can only return the continue value if it read nothing or read at least 18
characters that `parse_header` accepts, and in that case the session takes its sample
limit from that header. -/
theorem cycle_reset (devc : dev_context) (ev : read_event) (hd : fala_header)
    (cs : List (List Char)) (hv : valid_header_event ev hd) (hn : 1 ≤ hd.sample_count)
    (hlen : cs.flatten.length = hd.sample_count) (hev : cs.length < 2 ^ 32)
    (nxt : read_event) :
    (receive_events (dev_acquisition_start devc).1 (ev :: cs.map chunk_event)).1.num_transfers
      = 0 ∧
    (receive_events (dev_acquisition_start devc).1 (ev :: cs.map chunk_event)).1.num_samples
      = 0 ∧
    (∀ o v, effect.store o v ∉ (bp5_binmode_fala_receive_data
      (receive_events (dev_acquisition_start devc).1 (ev :: cs.map chunk_event)).1
        G_IO_IN nxt).trace) ∧
    (bp5_binmode_fala_receive_data
      (receive_events (dev_acquisition_start devc).1 (ev :: cs.map chunk_event)).1
        G_IO_IN nxt).devc.num_samples = 0 ∧
    ((bp5_binmode_fala_receive_data
      (receive_events (dev_acquisition_start devc).1 (ev :: cs.map chunk_event)).1
        G_IO_IN nxt).ret = true →
      nxt.len = 0 ∨ (18 ≤ nxt.len ∧ (parse_header nxt.read_buffer hd_uninit).1 = true)) ∧
    (18 ≤ nxt.len → (parse_header nxt.read_buffer hd_uninit).1 = true →
      (bp5_binmode_fala_receive_data
        (receive_events (dev_acquisition_start devc).1 (ev :: cs.map chunk_event)).1
          G_IO_IN nxt).devc.limit_samples
        = (parse_header nxt.read_buffer hd_uninit).2.sample_count) := by
  have hr := (cycle_run devc ev hd cs hv hn hlen hev).1
  have ht : (receive_events (dev_acquisition_start devc).1
      (ev :: cs.map chunk_event)).1.num_transfers = 0 := by rw [hr]; rfl
  have hs : (receive_events (dev_acquisition_start devc).1
      (ev :: cs.map chunk_event)).1.num_samples = 0 := by rw [hr]; rfl
  obtain ⟨p1, p2, p3, p4⟩ := header_path _ ht nxt
  exact ⟨ht, hs, p1, by rw [p2, hs], p3, p4⟩

/-- Witness of C10: after the four bytes of the scenario, an event that delivers two
more bytes stores nothing and is rejected as a header. -/
theorem cycle_reset_witness :
    valid_header_event (chunk_event "$FALADATA;2;3;1;Y;1000000;4;1;".toList)
      ⟨2, 3, 1, true, 1000000, 4, 1⟩ ∧
    (receive_events (dev_acquisition_start zeroed_context).1
      (chunk_event "$FALADATA;2;3;1;Y;1000000;4;1;".toList ::
        [bytes [1, 2], bytes [3, 4]].map chunk_event)).1.num_transfers = 0 ∧
    (bp5_binmode_fala_receive_data
      (receive_events (dev_acquisition_start zeroed_context).1
        (chunk_event "$FALADATA;2;3;1;Y;1000000;4;1;".toList ::
          [bytes [1, 2], bytes [3, 4]].map chunk_event)).1
      G_IO_IN (chunk_event (bytes [5, 6]))).devc.num_samples = 0 :=
  ⟨by decide,
    (cycle_reset zeroed_context (chunk_event "$FALADATA;2;3;1;Y;1000000;4;1;".toList)
      ⟨2, 3, 1, true, 1000000, 4, 1⟩ [bytes [1, 2], bytes [3, 4]]
      (by decide) (by decide) (by decide) (by decide) (chunk_event (bytes [5, 6]))).1,
    (cycle_reset zeroed_context (chunk_event "$FALADATA;2;3;1;Y;1000000;4;1;".toList)
      ⟨2, 3, 1, true, 1000000, 4, 1⟩ [bytes [1, 2], bytes [3, 4]]
      (by decide) (by decide) (by decide) (by decide) (chunk_event (bytes [5, 6]))).2.2.2.1⟩

/-! ## The header step and the error paths -/

/-- C11. A bad header is fatal and atomic: in the awaiting-header state
(`num_transfers = 0`), for every read result that is negative, has between 1 and 17
bytes, or has at least 18 bytes that `parse_header` rejects, the handler reads once,
invokes stop-acquisition and returns FALSE; it sends no datafeed item, writes nothing to
the link, allocates nothing, and leaves the device context as it was. -/
theorem bad_header_fatal (d : dev_context) (ev : read_event) (h0 : d.num_transfers = 0)
    (hlen : ev.len ≠ 0)
    (hbad : ev.len < 18 ∨ (parse_header ev.read_buffer hd_uninit).1 = false) :
    bp5_binmode_fala_receive_data d G_IO_IN ev
      = ⟨d, false, [effect.serial_read 1024 10, effect.acquisition_stop]⟩ := by
  have h : ev.len < 0 ∨ ev.len < 18 ∨ (parse_header ev.read_buffer hd_uninit).1 = false := by
    rcases hbad with h | h
    · exact Or.inr (Or.inl h)
    · exact Or.inr (Or.inr h)
  simp only [bp5_binmode_fala_receive_data, h0, if_true, hlen, if_false, h]

/-- Witness of C11: a read of 3 bytes and a read of 21 characters without the marker. -/
theorem bad_header_fatal_witness :
    bp5_binmode_fala_receive_data (dev_acquisition_start zeroed_context).1 G_IO_IN
        (chunk_event (bytes [1, 2, 3]))
      = ⟨(dev_acquisition_start zeroed_context).1, false,
          [effect.serial_read 1024 10, effect.acquisition_stop]⟩ ∧
    bp5_binmode_fala_receive_data (dev_acquisition_start zeroed_context).1 G_IO_IN
        (chunk_event "FALADATA;8;0;0;N;1;1;".toList)
      = ⟨(dev_acquisition_start zeroed_context).1, false,
          [effect.serial_read 1024 10, effect.acquisition_stop]⟩ :=
  ⟨bad_header_fatal _ (chunk_event (bytes [1, 2, 3])) (by decide) (by decide)
      (Or.inl (by decide)),
    bad_header_fatal _ (chunk_event "FALADATA;8;0;0;N;1;1;".toList) (by decide) (by decide)
      (Or.inr (by decide))⟩

/-- C12, the code at the failing input: a valid header for 4 samples whose buffer is
allocated and whose handshake write reports 0 bytes written. The handler returns FALSE
after frame-begin, the sample rate and the write, and does not invoke stop-acquisition,
which the bad-header path (here a header cut after its sixth field) does invoke. -/
theorem handshake_failure_without_stop :
    (bp5_binmode_fala_receive_data (dev_acquisition_start zeroed_context).1 G_IO_IN
      { chunk_event "$FALADATA;8;0;0;N;1000000;4;0;".toList with written := 0 }).ret = false ∧
    (bp5_binmode_fala_receive_data (dev_acquisition_start zeroed_context).1 G_IO_IN
      { chunk_event "$FALADATA;8;0;0;N;1000000;4;0;".toList with written := 0 }).trace
      = [effect.serial_read 1024 10, effect.malloc 4, effect.frame_begin,
         effect.meta_samplerate 1000000, effect.serial_write ['+'] 100] ∧
    effect.acquisition_stop ∉
      (bp5_binmode_fala_receive_data (dev_acquisition_start zeroed_context).1 G_IO_IN
        { chunk_event "$FALADATA;8;0;0;N;1000000;4;0;".toList with written := 0 }).trace ∧
    effect.acquisition_stop ∈
      (bp5_binmode_fala_receive_data (dev_acquisition_start zeroed_context).1 G_IO_IN
        (chunk_event "$FALADATA;8;0;0;N;1000000;4".toList)).trace := by
  decide

/-- Counterexample to C13: for the header with channel field `-1` the parsed
`n_channels` is 4294967295 and the session's `num_logic_channels`, an `int32_t`, is -1. -/
theorem channel_count_narrowed :
    (parse_header "$FALADATA;-1;0;0;N;1000000;4;0;".toList hd_uninit).2.n_channels
      = 4294967295 ∧
    (bp5_binmode_fala_receive_data (dev_acquisition_start zeroed_context).1 G_IO_IN
      (chunk_event "$FALADATA;-1;0;0;N;1000000;4;0;".toList)).devc.num_logic_channels = -1 := by
  decide

/-- C13, amended. The valid header step: in the awaiting-header state, for a read of at
least 18 characters that `parse_header` accepts with header `hd`, `sample_count ≥ 1`,
allocation and the handshake write succeeding, the handler sets the sample limit, the
sample rate, the pre-trigger limit and the two trigger masks to the parsed values and
the channel count to the parsed value converted to `int32_t` (the parsed value itself
when it is below 2^31); it reads once, allocates `sample_count` bytes, sends frame-begin
and then the parsed sample rate and nothing else to the datafeed, writes the one byte
`+`, sets `num_transfers` to 1, leaves `num_samples` as it was, stores no sample and
returns TRUE. -/
theorem valid_header_step (d : dev_context) (ev : read_event) (hd : fala_header)
    (h0 : d.num_transfers = 0) (hv : valid_header_event ev hd) (hn : 1 ≤ hd.sample_count) :
    bp5_binmode_fala_receive_data d G_IO_IN ev =
      ⟨{ cur_samplerate := hd.sample_rate, limit_samples := hd.sample_count,
         num_samples := d.num_samples, num_transfers := 1,
         num_logic_channels := to_int hd.n_channels, logic_unitsize := d.logic_unitsize,
         raw_sample_buf := some ⟨(List.range hd.sample_count).map ev.alloc_fill, true⟩,
         before_trigger_sample_count := hd.before_trigger_sample_count,
         trigger_channel_mask := hd.trigger_channel_mask, trigger_mask := hd.trigger_mask },
       true,
       [effect.serial_read 1024 10, effect.malloc hd.sample_count, effect.frame_begin,
        effect.meta_samplerate hd.sample_rate, effect.serial_write ['+'] 100]⟩ ∧
    (hd.n_channels < 2 ^ 31 → to_int hd.n_channels = hd.n_channels) := by
  obtain ⟨h18, hp, ha, hw⟩ := hv
  have e0 : ev.len ≠ 0 := by omega
  have e1 : ¬ (ev.len < 0) := by omega
  have e2 : ¬ (ev.len < 18) := by omega
  have e3 : hd.sample_count ≠ 0 := by omega
  constructor
  · simp [bp5_binmode_fala_receive_data, h0, hp, e0, e1, e2, e3, ha, hw, g_try_malloc]
  · intro h
    simp only [to_int]
    omega

/-- Witness of C13, amended: the header of the specification's scenario. -/
theorem valid_header_step_witness :
    valid_header_event (chunk_event "$FALADATA;2;3;1;Y;1000000;4;1;".toList)
      ⟨2, 3, 1, true, 1000000, 4, 1⟩ ∧
    (bp5_binmode_fala_receive_data (dev_acquisition_start zeroed_context).1 G_IO_IN
      (chunk_event "$FALADATA;2;3;1;Y;1000000;4;1;".toList)).trace
      = [effect.serial_read 1024 10, effect.malloc 4, effect.frame_begin,
         effect.meta_samplerate 1000000, effect.serial_write ['+'] 100] :=
  ⟨by decide,
    congrArg outcome.trace
      (valid_header_step (dev_acquisition_start zeroed_context).1
        (chunk_event "$FALADATA;2;3;1;Y;1000000;4;1;".toList) ⟨2, 3, 1, true, 1000000, 4, 1⟩
        (by decide) (by decide) (by decide)).1⟩

/-- C14. A zero-length read is not an error: in every device context, awaiting a header
or streaming, a read event whose read returns 0 makes the handler return TRUE; the only
effect it can have performed is the read itself (so no stop-acquisition, no datafeed
item and no write to the link), the sample limit, the sample count and the buffer are
unchanged, and in the awaiting-header state `num_transfers` stays 0. -/
theorem zero_length_read (d : dev_context) (ev : read_event) (hlen : ev.len = 0) :
    (bp5_binmode_fala_receive_data d G_IO_IN ev).ret = true ∧
    (∀ e ∈ (bp5_binmode_fala_receive_data d G_IO_IN ev).trace, e = effect.serial_read 1024 10) ∧
    (bp5_binmode_fala_receive_data d G_IO_IN ev).devc.limit_samples = d.limit_samples ∧
    (bp5_binmode_fala_receive_data d G_IO_IN ev).devc.num_samples = d.num_samples ∧
    (bp5_binmode_fala_receive_data d G_IO_IN ev).devc.raw_sample_buf = d.raw_sample_buf ∧
    (d.num_transfers = 0 →
      (bp5_binmode_fala_receive_data d G_IO_IN ev).devc.num_transfers = 0) := by
  by_cases h0 : d.num_transfers = 0
  · simp [bp5_binmode_fala_receive_data, hlen, h0]
  · by_cases hn : d.num_samples < d.limit_samples
    · simp [bp5_binmode_fala_receive_data, hlen, h0, hn]
    · simp [bp5_binmode_fala_receive_data, hlen, h0, hn]

/-- Witness of C14: an idle read in the awaiting-header state. -/
theorem zero_length_read_witness :
    (chunk_event []).len = 0 ∧
    (bp5_binmode_fala_receive_data (dev_acquisition_start zeroed_context).1 G_IO_IN
      (chunk_event [])).ret = true :=
  ⟨by decide,
    (zero_length_read (dev_acquisition_start zeroed_context).1 (chunk_event [])
      (by decide)).1⟩

/-- C19. A read error while streaming is fatal, and a full buffer makes the handler
ignore the event: in the streaming state (`num_transfers ≠ 0`), with
`num_samples < limit_samples` a negative read result makes the handler read once, invoke
stop-acquisition and return FALSE, with no store, no datafeed item and the sample count
and the buffer unchanged; with `num_samples ≥ limit_samples` the handler performs no
effect at all (no read) and returns TRUE. In both cases only the transfer counter of the
device context changes. -/
theorem streaming_read_error (d : dev_context) (ev : read_event) (ht : d.num_transfers ≠ 0) :
    (d.num_samples < d.limit_samples → ev.len < 0 →
      bp5_binmode_fala_receive_data d G_IO_IN ev
        = ⟨set_transfers d ((d.num_transfers + 1) % 2 ^ 32), false,
            [effect.serial_read 1024 10, effect.acquisition_stop]⟩) ∧
    (d.limit_samples ≤ d.num_samples →
      bp5_binmode_fala_receive_data d G_IO_IN ev
        = ⟨set_transfers d ((d.num_transfers + 1) % 2 ^ 32), true, []⟩) := by
  constructor
  · intro hn hl
    have h1 : ev.len ≤ 0 := by omega
    have h2 : ev.len ≠ 0 := by omega
    simp [bp5_binmode_fala_receive_data, ht, hn, h1, h2, set_transfers]
  · intro hn
    have h1 : ¬ d.num_samples < d.limit_samples := by omega
    simp [bp5_binmode_fala_receive_data, ht, h1, set_transfers]

/-- Witness of C19: a streaming context with 1 of 4 samples and the read result -1, and
a streaming context with 4 of 4 samples. -/
theorem streaming_read_error_witness :
    bp5_binmode_fala_receive_data ⟨1000000, 4, 1, 2, 8, 1, some ⟨[0, 0, 0, 7], true⟩, 0, 0, 0⟩
        G_IO_IN { chunk_event [] with len := -1 }
      = ⟨⟨1000000, 4, 1, 3, 8, 1, some ⟨[0, 0, 0, 7], true⟩, 0, 0, 0⟩, false,
          [effect.serial_read 1024 10, effect.acquisition_stop]⟩ ∧
    bp5_binmode_fala_receive_data ⟨1000000, 4, 4, 2, 8, 1, some ⟨[1, 2, 3, 7], true⟩, 0, 0, 0⟩
        G_IO_IN (chunk_event (bytes [9]))
      = ⟨⟨1000000, 4, 4, 3, 8, 1, some ⟨[1, 2, 3, 7], true⟩, 0, 0, 0⟩, true, []⟩ :=
  ⟨(streaming_read_error ⟨1000000, 4, 1, 2, 8, 1, some ⟨[0, 0, 0, 7], true⟩, 0, 0, 0⟩
      { chunk_event [] with len := -1 } (by decide)).1 (by decide) (by decide),
    (streaming_read_error ⟨1000000, 4, 4, 2, 8, 1, some ⟨[1, 2, 3, 7], true⟩, 0, 0, 0⟩
      (chunk_event (bytes [9])) (by decide)).2 (by decide)⟩

/-! ## Lenient field parsing -/

theorem digits_value_nondigit (l : List Char) (h : isdigit (deref l) = false) :
    digits_value l 0 = 0 := by
  cases l with
  | nil => rfl
  | cons c cs =>
    have : isdigit c = false := by simpa [deref] using h
    simp [digits_value, this]

theorem atoi_no_digits (s : List Char) (h : isdigit (deref (number_start s)) = false) :
    atoi s = 0 := by
  unfold number_start at h
  unfold atoi strtol
  by_cases h1 : deref (s.dropWhile isspace) = '-'
  · simp only [h1, true_or, if_true] at h
    simp only [h1, if_true, digits_value_nondigit _ h]
    decide
  · by_cases h2 : deref (s.dropWhile isspace) = '+'
    · simp only [h2, or_true, if_true] at h
      simp only [h1, h2, if_true, if_false, digits_value_nondigit _ h]
      decide
    · simp only [h1, h2, or_self, if_false] at h
      simp only [h1, h2, if_false, digits_value_nondigit _ h]
      decide

theorem digits_value_prefix (v : Nat) (c : Char) (rest : List Char) (hc : isdigit c = false) :
    digits_value (unsigned_decimal v ++ c :: rest) 0 = v := by
  obtain ⟨k, hk⟩ := toDigitsCore_value (v + 1) v [] (by omega)
  rw [unsigned_decimal_eq, Nat.toDigits, hk]
  simp [digits_value, hc]

theorem atoi_prefix (v : Nat) (hv : v < 2 ^ 32) (c : Char) (rest : List Char)
    (hc : isdigit c = false) :
    to_uint32 (atoi (unsigned_decimal v ++ c :: rest)) = v := by
  have hne := unsigned_decimal_ne_nil v
  have hdig := unsigned_decimal_digits v
  have hval := digits_value_prefix v c rest hc
  revert hne hdig hval
  cases unsigned_decimal v with
  | nil => simp
  | cons d ds =>
    intro _ hdig hval
    have hd := isdigit_ne (hdig d (by simp))
    unfold atoi strtol
    simp only [List.cons_append, List.dropWhile_cons, hd.2.2.2.2, deref, List.headD_cons,
      hd.2.2.1, hd.2.2.2.1, if_false, Bool.false_eq_true]
    rw [List.cons_append] at hval
    rw [hval]
    simp only [to_uint32, to_int, LONG_MAX]
    omega

theorem skip_fields_step (k : Nat) (b b' : List Char) (h : next_field b = (true, b')) :
    skip_fields (k + 1) b = skip_fields k b' := by
  rw [skip_fields, h]
  rfl

theorem parse_header_fields (buf : List Char) (hd : fala_header)
    (hm : buf.take 9 = "$FALADATA".toList) (h7 : 7 ≤ semis (buf.drop 9)) :
    parse_header buf hd =
      (true, ⟨to_uint32 (atoi (field_text 1 buf)), to_uint32 (atoi (field_text 2 buf)),
        to_uint32 (atoi (field_text 3 buf)), decide (deref (field_text 4 buf) = 'Y'),
        to_uint32 (atoi (field_text 5 buf)), to_uint32 (atoi (field_text 6 buf)),
        to_uint32 (atoi (field_text 7 buf))⟩) := by
  have hs := (strncmp_marker buf).2 hm
  unfold field_text
  revert h7
  unfold parse_header
  generalize strncmp buf "$FALADATA".toList 9 = c at hs
  generalize buf.drop 9 = b0
  subst hs
  simp only [ne_eq, not_true_eq_false, if_false]
  have s1 := next_field_semis b0
  rcases h1 : next_field b0 with ⟨o1, b1⟩
  rw [h1] at s1
  cases o1
  · intro h; simp at *; omega
  dsimp only
  have s2 := next_field_semis b1
  rcases h2 : next_field b1 with ⟨o2, b2⟩
  rw [h2] at s2
  cases o2
  · intro h; simp at *; omega
  dsimp only
  have s3 := next_field_semis b2
  rcases h3 : next_field b2 with ⟨o3, b3⟩
  rw [h3] at s3
  cases o3
  · intro h; simp at *; omega
  dsimp only
  have s4 := next_field_semis b3
  rcases h4 : next_field b3 with ⟨o4, b4⟩
  rw [h4] at s4
  cases o4
  · intro h; simp at *; omega
  dsimp only
  have s5 := next_field_semis b4
  rcases h5 : next_field b4 with ⟨o5, b5⟩
  rw [h5] at s5
  cases o5
  · intro h; simp at *; omega
  dsimp only
  have s6 := next_field_semis b5
  rcases h6 : next_field b5 with ⟨o6, b6⟩
  rw [h6] at s6
  cases o6
  · intro h; simp at *; omega
  dsimp only
  have s7 := next_field_semis b6
  rcases h7 : next_field b6 with ⟨o7, b7⟩
  rw [h7] at s7
  cases o7
  · intro h; simp at *; omega
  dsimp only
  intro _
  have k1 : skip_fields 1 b0 = some b1 := by rw [skip_fields_step 0 b0 b1 h1]; rfl
  have k2 : skip_fields 2 b0 = some b2 := by
    rw [skip_fields_step 1 b0 b1 h1, skip_fields_step 0 b1 b2 h2]; rfl
  have k3 : skip_fields 3 b0 = some b3 := by
    rw [skip_fields_step 2 b0 b1 h1, skip_fields_step 1 b1 b2 h2, skip_fields_step 0 b2 b3 h3]
    rfl
  have k4 : skip_fields 4 b0 = some b4 := by
    rw [skip_fields_step 3 b0 b1 h1, skip_fields_step 2 b1 b2 h2, skip_fields_step 1 b2 b3 h3,
      skip_fields_step 0 b3 b4 h4]
    rfl
  have k5 : skip_fields 5 b0 = some b5 := by
    rw [skip_fields_step 4 b0 b1 h1, skip_fields_step 3 b1 b2 h2, skip_fields_step 2 b2 b3 h3,
      skip_fields_step 1 b3 b4 h4, skip_fields_step 0 b4 b5 h5]
    rfl
  have k6 : skip_fields 6 b0 = some b6 := by
    rw [skip_fields_step 5 b0 b1 h1, skip_fields_step 4 b1 b2 h2, skip_fields_step 3 b2 b3 h3,
      skip_fields_step 2 b3 b4 h4, skip_fields_step 1 b4 b5 h5, skip_fields_step 0 b5 b6 h6]
    rfl
  have k7 : skip_fields 7 b0 = some b7 := by
    rw [skip_fields_step 6 b0 b1 h1, skip_fields_step 5 b1 b2 h2, skip_fields_step 4 b2 b3 h3,
      skip_fields_step 3 b3 b4 h4, skip_fields_step 2 b4 b5 h5, skip_fields_step 1 b5 b6 h6,
      skip_fields_step 0 b6 b7 h7]
    rfl
  rw [k1, k2, k3, k4, k5, k6, k7]
  rfl

/-- Counterexample to C15: the channel field `-1` neither yields 0 nor a value equal to
-1 but 4294967295, and the field `4294967296x`, a numeric prefix followed by another
character, yields 0 and not the value of its prefix. -/
theorem lenient_fields_sign_and_range :
    parse_header "$FALADATA;-1;4294967296x;0;N;1;1;1;".toList hd_uninit
      = (true, ⟨4294967295, 0, 0, false, 1, 1, 1⟩) := by
  decide

/-- C15, amended. Lenient field parsing: for every record that begins with the marker
and has at least seven `;` after it, `parse_header` succeeds whatever the fields hold;
each integer field is the `atoi` of the text after its `;`, converted to 32 bits, and
`edge_trigger` is true if and only if the first character after the fourth `;` is `Y`.
`atoi` skips white space and reads one optional sign: a text with no digit at that place
(empty, letters) yields 0, and the unsigned decimal text of a value below 2^32 followed
by any character that is not a digit yields that value. -/
theorem lenient_field_parsing (buf : List Char) (hd : fala_header)
    (hm : buf.take 9 = "$FALADATA".toList) (h7 : 7 ≤ semis (buf.drop 9)) :
    parse_header buf hd =
      (true, ⟨to_uint32 (atoi (field_text 1 buf)), to_uint32 (atoi (field_text 2 buf)),
        to_uint32 (atoi (field_text 3 buf)), decide (deref (field_text 4 buf) = 'Y'),
        to_uint32 (atoi (field_text 5 buf)), to_uint32 (atoi (field_text 6 buf)),
        to_uint32 (atoi (field_text 7 buf))⟩) ∧
    (∀ s : List Char, isdigit (deref (number_start s)) = false → to_uint32 (atoi s) = 0) ∧
    (∀ (v : Nat) (c : Char) (rest : List Char), v < 2 ^ 32 → isdigit c = false →
      to_uint32 (atoi (unsigned_decimal v ++ c :: rest)) = v) := by
  refine ⟨parse_header_fields buf hd hm h7, ?_, ?_⟩
  · intro s hs
    rw [atoi_no_digits s hs]
    rfl
  · intro v c rest hv hc
    exact atoi_prefix v hv c rest hc

/-- Witness of C15, amended: a record whose fields are letters, empty, digits followed
by a letter, and a lower-case `y`. -/
theorem lenient_field_parsing_witness :
    ("$FALADATA;abc;;12x;y;7;8;9".toList.take 9 = "$FALADATA".toList ∧
      7 ≤ semis ("$FALADATA;abc;;12x;y;7;8;9".toList.drop 9)) ∧
    field_text 3 "$FALADATA;abc;;12x;y;7;8;9".toList = "12x;y;7;8;9".toList ∧
    parse_header "$FALADATA;abc;;12x;y;7;8;9".toList hd_uninit
      = (true, ⟨0, 0, 12, false, 7, 8, 9⟩) :=
  ⟨by decide, by decide,
    (lenient_field_parsing "$FALADATA;abc;;12x;y;7;8;9".toList hd_uninit (by decide)
      (by decide)).1.trans (by decide)⟩

/-! ## Store offsets, the streaming invariant and partial cycles -/

theorem stores_indices (bs : List Char) (d : dev_context) (hu : d.logic_unitsize = 1)
    (hl : d.limit_samples ≤ 2 ^ 31) (hn : d.num_samples + bs.length ≤ d.limit_samples) :
    (stores d bs).filterMap store_index
      = (List.range' d.num_samples bs.length).map
          (fun k => ((d.limit_samples - 1 - k : Nat) : Int)) := by
  induction bs generalizing d with
  | nil => rfl
  | cons x xs ih =>
    simp only [List.length_cons] at hn
    have hoff := store_offset_eq d hu hl (by omega)
    have h1 : (d.num_samples + 1) % 2 ^ 64 = d.num_samples + 1 := Nat.mod_eq_of_lt (by omega)
    have := ih (put_sample d x) hu (by rw [put_sample_limit]; exact hl)
      (by rw [put_sample_num, h1, put_sample_limit]; omega)
    rw [put_sample_num, h1, put_sample_limit] at this
    have e : d.limit_samples - d.num_samples - 1 = d.limit_samples - 1 - d.num_samples := by
      omega
    rw [stores, List.filterMap_cons, hoff, this, List.length_cons, List.range'_succ,
      List.map_cons, e]
    rfl

theorem indices_without_reads (tr : List effect) :
    (without_reads tr).filterMap store_index = tr.filterMap store_index := by
  induction tr with
  | nil => rfl
  | cons e tr ih =>
    cases e <;> simp_all [without_reads, is_read, store_index]

theorem indices_emit (d : dev_context) : (emit_capture d).2.filterMap store_index = [] := by
  simp only [emit_capture]
  split_ifs <;> simp [store_index]

/-- The fill order of a cycle whose `sample_count` is at most 2^31: the store offsets of
the cycle are `n - 1`, `n - 2`, ..., 0 in this order, so the `k`-th byte received goes to
index `n - 1 - k` and every index below `n` is written exactly once. -/
theorem reverse_fill_below_int_max (devc : dev_context) (ev : read_event) (hd : fala_header)
    (cs : List (List Char)) (hv : valid_header_event ev hd) (hn : 1 ≤ hd.sample_count)
    (hb : hd.sample_count ≤ 2 ^ 31) (hlen : cs.flatten.length = hd.sample_count)
    (hev : cs.length < 2 ^ 32) :
    (receive_events (dev_acquisition_start devc).1
        (ev :: cs.map chunk_event)).2.filterMap store_index
      = (List.range hd.sample_count).map (fun k => ((hd.sample_count - 1 - k : Nat) : Int)) := by
  rw [← indices_without_reads, (cycle_run devc ev hd cs hv hn hlen hev).2,
    List.filterMap_append, List.filterMap_append, indices_emit,
    stores_indices cs.flatten (cycle_start hd ev) rfl hb
      (by simp only [cycle_start]; omega)]
  simp only [cycle_start, hlen, List.range_eq_range']
  simp [store_index]

/-- C16, the code at the failing input: for a header with `sample_count = 2^31 + 1` the
first byte received should go to index 2^31; the `int` that holds the offset is -2^31. -/
theorem reverse_fill_int_wrap :
    (receive_events (dev_acquisition_start zeroed_context).1
      [chunk_event "$FALADATA;8;0;0;N;1000000;2147483649;0;".toList,
       chunk_event ['a']]).2.filterMap store_index = [-2147483648] := by
  decide

set_option maxRecDepth 4000 in
/-- C17, the code at the failing input: a header for 2 samples, one read event of 3
bytes, and a header for 1 sample. The third byte is counted after the cycle was reset, the
header path does not reset `num_samples`, and the session is in the streaming state
(`num_transfers = 1`) with `num_samples = 1` and `limit_samples = 1`; from there every
read event is ignored. -/
theorem streaming_invariant_broken_by_excess :
    (receive_events (dev_acquisition_start zeroed_context).1
      [chunk_event "$FALADATA;8;0;0;N;1000000;2;0;".toList,
       chunk_event (bytes [1, 2, 3]),
       chunk_event "$FALADATA;8;0;0;N;1000000;1;0;".toList]).1.num_transfers = 1 ∧
    (receive_events (dev_acquisition_start zeroed_context).1
      [chunk_event "$FALADATA;8;0;0;N;1000000;2;0;".toList,
       chunk_event (bytes [1, 2, 3]),
       chunk_event "$FALADATA;8;0;0;N;1000000;1;0;".toList]).1.num_samples = 1 ∧
    (receive_events (dev_acquisition_start zeroed_context).1
      [chunk_event "$FALADATA;8;0;0;N;1000000;2;0;".toList,
       chunk_event (bytes [1, 2, 3]),
       chunk_event "$FALADATA;8;0;0;N;1000000;1;0;".toList]).1.limit_samples = 1 ∧
    (bp5_binmode_fala_receive_data
      (receive_events (dev_acquisition_start zeroed_context).1
        [chunk_event "$FALADATA;8;0;0;N;1000000;2;0;".toList,
         chunk_event (bytes [1, 2, 3]),
         chunk_event "$FALADATA;8;0;0;N;1000000;1;0;".toList]).1
      G_IO_IN (chunk_event (bytes [9]))).trace = [] := by
  decide

theorem receive_events_append (d : dev_context) (a b : List read_event) :
    receive_events d (a ++ b) =
      ((receive_events (receive_events d a).1 b).1,
        (receive_events d a).2 ++ (receive_events (receive_events d a).1 b).2) := by
  induction a generalizing d with
  | nil => simp [receive_events]
  | cons e es ih =>
    rw [List.cons_append]
    simp only [receive_events, ih, List.append_assoc]

theorem receive_events_cons (d : dev_context) (e : read_event) (es : List read_event) :
    receive_events d (e :: es) =
      ((receive_events (bp5_binmode_fala_receive_data d G_IO_IN e).devc es).1,
        (bp5_binmode_fala_receive_data d G_IO_IN e).trace ++
          (receive_events (bp5_binmode_fala_receive_data d G_IO_IN e).devc es).2) := rfl

theorem set_transfers_num (d : dev_context) (t : Nat) :
    (set_transfers d t).num_transfers = t ∧ (set_transfers d t).num_samples = d.num_samples ∧
    (set_transfers d t).limit_samples = d.limit_samples := ⟨rfl, rfl, rfl⟩

theorem set_transfers_twice (d : dev_context) (t u : Nat) :
    set_transfers (set_transfers d t) u = set_transfers d u := rfl

theorem run_partial (cs : List (List Char)) (d : dev_context)
    (ht : 1 ≤ d.num_transfers) (htb : d.num_transfers < 2 ^ 32)
    (hev : d.num_transfers + cs.length ≤ 2 ^ 32) (hl : d.limit_samples < 2 ^ 64)
    (hsum : d.num_samples + cs.flatten.length < d.limit_samples) :
    (receive_events d (cs.map chunk_event)).1
      = set_transfers (put_samples d cs.flatten) ((d.num_transfers + cs.length) % 2 ^ 32) ∧
    without_reads (receive_events d (cs.map chunk_event)).2 = stores d cs.flatten := by
  induction cs generalizing d with
  | nil =>
    refine ⟨?_, rfl⟩
    simp only [List.map_nil, receive_events, List.flatten_nil, put_samples, List.length_nil,
      Nat.add_zero]
    have : d.num_transfers % 2 ^ 32 = d.num_transfers := Nat.mod_eq_of_lt htb
    rw [this]
    rfl
  | cons c cs ih =>
    simp only [List.flatten_cons, List.length_append] at hsum
    simp only [List.length_cons] at hev
    have hlt : d.num_samples < d.limit_samples := by omega
    have ht0 : d.num_transfers ≠ 0 := by omega
    have hstep : (bp5_binmode_fala_receive_data d G_IO_IN (chunk_event c)).devc
          = set_transfers (put_samples d c) ((d.num_transfers + 1) % 2 ^ 32) ∧
        without_reads (bp5_binmode_fala_receive_data d G_IO_IN (chunk_event c)).trace
          = stores d c := by
      by_cases hc : c = []
      · subst hc
        rw [step_idle d ht0 hlt]
        exact ⟨rfl, rfl⟩
      · rw [step_data d c ht0 hlt hc]
        have hpart := store_samples_partial c
          (set_transfers d ((d.num_transfers + 1) % 2 ^ 32))
          (by show d.num_samples + c.length < d.limit_samples; omega) hl
        simp only [hpart, put_samples_transfers, stores_transfers, without_reads_read,
          without_reads_stores, and_self]
    simp only [List.map_cons, receive_events, List.flatten_cons, without_reads_append,
      hstep.1, hstep.2]
    by_cases hcs : cs = []
    · subst hcs
      simp only [List.map_nil, receive_events, List.flatten_nil, List.append_nil,
        List.length_nil, without_reads]
      exact ⟨rfl, by simp⟩
    · have hpos : 1 ≤ cs.length := by
        cases cs with
        | nil => exact absurd rfl hcs
        | cons _ _ => simp
      have hmod : (d.num_transfers + 1) % 2 ^ 32 = d.num_transfers + 1 :=
        Nat.mod_eq_of_lt (by omega)
      have hnum : (put_samples d c).num_samples = d.num_samples + c.length :=
        put_samples_num d c (by omega)
      have := ih (set_transfers (put_samples d c) (d.num_transfers + 1))
        (by show 1 ≤ d.num_transfers + 1; omega)
        (by show d.num_transfers + 1 < 2 ^ 32; omega)
        (by show d.num_transfers + 1 + cs.length ≤ 2 ^ 32; omega)
        (by show (put_samples d c).limit_samples < 2 ^ 64; rw [put_samples_limit]; exact hl)
        (by
          show (put_samples d c).num_samples + cs.flatten.length
            < (put_samples d c).limit_samples
          rw [put_samples_limit, hnum]; omega)
      rw [hmod, this.1, this.2, put_samples_transfers, stores_transfers, set_transfers_twice,
        ← put_samples_append, stores_append]
      refine ⟨?_, rfl⟩
      show set_transfers _ ((d.num_transfers + 1 + cs.length) % 2 ^ 32) = _
      rw [Nat.add_right_comm d.num_transfers 1 cs.length, Nat.add_assoc]
      rfl

theorem flatten_replicate_nil (k : Nat) :
    (List.replicate k ([] : List Char)).flatten = [] := by
  apply List.eq_nil_of_length_eq_zero
  rw [flatten_replicate_length]
  rfl

theorem idle_run (k : Nat) (d : dev_context) (ht : 1 ≤ d.num_transfers)
    (htb : d.num_transfers < 2 ^ 32) (hev : d.num_transfers + k ≤ 2 ^ 32)
    (hl : d.limit_samples < 2 ^ 64) (hn : d.num_samples < d.limit_samples) :
    (receive_events d ((List.replicate k ([] : List Char)).map chunk_event)).1
      = set_transfers d ((d.num_transfers + k) % 2 ^ 32) ∧
    datafeed (receive_events d ((List.replicate k ([] : List Char)).map chunk_event)).2 = [] := by
  have h := run_partial (List.replicate k []) d ht htb
    (by rw [List.length_replicate]; exact hev) hl
    (by rw [flatten_replicate_nil]; exact hn)
  rw [flatten_replicate_nil, List.length_replicate] at h
  refine ⟨h.1, ?_⟩
  rw [← datafeed_without_reads, h.2]
  rfl

theorem streaming_step (d : dev_context) (c : List Char) (ht0 : d.num_transfers ≠ 0)
    (hl : d.limit_samples < 2 ^ 64) (hsum : d.num_samples + c.length < d.limit_samples) :
    (bp5_binmode_fala_receive_data d G_IO_IN (chunk_event c)).devc
      = set_transfers (put_samples d c) ((d.num_transfers + 1) % 2 ^ 32) ∧
    without_reads (bp5_binmode_fala_receive_data d G_IO_IN (chunk_event c)).trace
      = stores d c := by
  have hlt : d.num_samples < d.limit_samples := by omega
  by_cases hc : c = []
  · subst hc
    rw [step_idle d ht0 hlt]
    exact ⟨rfl, rfl⟩
  · rw [step_data d c ht0 hlt hc]
    have hpart := store_samples_partial c
      (set_transfers d ((d.num_transfers + 1) % 2 ^ 32))
      (by show d.num_samples + c.length < d.limit_samples; omega) hl
    simp only [hpart, put_samples_transfers, stores_transfers, without_reads_read,
      without_reads_stores, and_self]

theorem run_streaming (cs : List (List Char)) (d : dev_context)
    (hrun : streaming_run d (cs.map chunk_event)) (hl : d.limit_samples < 2 ^ 64)
    (hsum : d.num_samples + cs.flatten.length < d.limit_samples) :
    (∃ t, (receive_events d (cs.map chunk_event)).1
      = set_transfers (put_samples d cs.flatten) t) ∧
    without_reads (receive_events d (cs.map chunk_event)).2 = stores d cs.flatten := by
  induction cs generalizing d with
  | nil => exact ⟨⟨d.num_transfers, rfl⟩, rfl⟩
  | cons c cs ih =>
    simp only [List.flatten_cons, List.length_append] at hsum
    simp only [List.map_cons, streaming_run] at hrun
    obtain ⟨ht0, hrest⟩ := hrun
    have hstep := streaming_step d c ht0 hl (by omega)
    rw [hstep.1] at hrest
    have hnum : (put_samples d c).num_samples = d.num_samples + c.length :=
      put_samples_num d c (by omega)
    have := ih (set_transfers (put_samples d c) ((d.num_transfers + 1) % 2 ^ 32)) hrest
      (by show (put_samples d c).limit_samples < 2 ^ 64; rw [put_samples_limit]; exact hl)
      (by
        show (put_samples d c).num_samples + cs.flatten.length
          < (put_samples d c).limit_samples
        rw [put_samples_limit, hnum]; omega)
    obtain ⟨⟨t, h1⟩, h2⟩ := this
    simp only [List.map_cons, receive_events, List.flatten_cons, without_reads_append,
      hstep.1, hstep.2, h1, h2]
    refine ⟨⟨t, ?_⟩, ?_⟩
    · rw [put_samples_transfers, set_transfers_twice, ← put_samples_append]
    · rw [stores_transfers, stores_append]

theorem streaming_run_of_bound (cs : List (List Char)) (d : dev_context)
    (ht : 1 ≤ d.num_transfers) (hev : d.num_transfers + cs.length ≤ 2 ^ 32)
    (hl : d.limit_samples < 2 ^ 64)
    (hsum : d.num_samples + cs.flatten.length < d.limit_samples) :
    streaming_run d (cs.map chunk_event) := by
  induction cs generalizing d with
  | nil => trivial
  | cons c cs ih =>
    simp only [List.flatten_cons, List.length_append] at hsum
    simp only [List.length_cons] at hev
    have ht0 : d.num_transfers ≠ 0 := by omega
    have hstep := streaming_step d c ht0 hl (by omega)
    simp only [List.map_cons, streaming_run]
    refine ⟨ht0, ?_⟩
    rw [hstep.1]
    by_cases hcs : cs = []
    · subst hcs; trivial
    · have hpos : 1 ≤ cs.length := by
        cases cs with
        | nil => exact absurd rfl hcs
        | cons _ _ => simp
      have hmod : (d.num_transfers + 1) % 2 ^ 32 = d.num_transfers + 1 :=
        Nat.mod_eq_of_lt (by omega)
      have hnum : (put_samples d c).num_samples = d.num_samples + c.length :=
        put_samples_num d c (by omega)
      rw [hmod]
      exact ih (set_transfers (put_samples d c) (d.num_transfers + 1))
        (by show 1 ≤ d.num_transfers + 1; omega)
        (by show d.num_transfers + 1 + cs.length ≤ 2 ^ 32; omega)
        (by show (put_samples d c).limit_samples < 2 ^ 64; rw [put_samples_limit]; exact hl)
        (by
          show (put_samples d c).num_samples + cs.flatten.length
            < (put_samples d c).limit_samples
          rw [put_samples_limit, hnum]; omega)

/-- The 32-bit transfer counter wraps: after a header for 100 samples, 4294967295
zero-length reads bring `num_transfers` back to 0, so the engine awaits a header again
without having sent a frame-end; the next read event, 30 characters, is parsed as a header
(for 1 sample), and the read event after it, 1 byte, completes that new cycle. -/
theorem idle_reads_wrap_transfer_counter :
    datafeed (receive_events (dev_acquisition_start zeroed_context).1
      (chunk_event "$FALADATA;8;0;0;N;1000000;100;0;".toList ::
        (List.replicate 4294967295 ([] : List Char)).map chunk_event ++
          [chunk_event "$FALADATA;8;0;0;N;1000000;1;0;".toList, chunk_event ['a']])).2
      = [effect.frame_begin, effect.meta_samplerate 1000000, effect.frame_begin,
         effect.meta_samplerate 1000000, effect.logic 0 1 1 [97], effect.frame_end] := by
  have hv : valid_header_event (chunk_event "$FALADATA;8;0;0;N;1000000;100;0;".toList)
      ⟨8, 0, 0, false, 1000000, 100, 0⟩ := by decide
  have h1 := header_step_start zeroed_context _ _ hv (by decide)
  have hidle := idle_run 4294967295
    (cycle_start ⟨8, 0, 0, false, 1000000, 100, 0⟩
      (chunk_event "$FALADATA;8;0;0;N;1000000;100;0;".toList))
    (by decide) (by decide) (by decide) (by decide) (by decide)
  rw [List.cons_append, receive_events_cons, h1]
  dsimp only
  rw [receive_events_append, datafeed_append, datafeed_append, hidle.2, hidle.1]
  decide

/-- C18. No partial emission: for every valid header and every sequence of read events
handled in the streaming state (zero-length reads included) whose chunks total fewer than
`sample_count` bytes, the datafeed of the cycle holds the frame-begin and the sample rate
of the header step and nothing else, the streaming events themselves send nothing (no
logic packet, no trigger marker, no frame-end), and `num_samples` is the number of bytes
received, still below `limit_samples`. -/
theorem no_partial_emission (devc : dev_context) (ev : read_event) (hd : fala_header)
    (cs : List (List Char)) (hv : valid_header_event ev hd) (hn : 1 ≤ hd.sample_count)
    (hrun : streaming_run (cycle_start hd ev) (cs.map chunk_event))
    (hsum : cs.flatten.length < hd.sample_count) :
    datafeed (receive_events (dev_acquisition_start devc).1 (ev :: cs.map chunk_event)).2
      = [effect.frame_begin, effect.meta_samplerate hd.sample_rate] ∧
    datafeed (receive_events (cycle_start hd ev) (cs.map chunk_event)).2 = [] ∧
    (receive_events (dev_acquisition_start devc).1 (ev :: cs.map chunk_event)).1.num_samples
      = cs.flatten.length := by
  have hb := (parse_header_bounds _ _ _ hv.2.1).2.2.2.2.1
  have hr := run_streaming cs (cycle_start hd ev) hrun (by simp only [cycle_start]; omega)
    (by simp only [cycle_start]; omega)
  obtain ⟨⟨t, h1⟩, h2⟩ := hr
  have hfeed : datafeed (receive_events (cycle_start hd ev) (cs.map chunk_event)).2 = [] := by
    rw [← datafeed_without_reads, h2, datafeed_stores]
  simp only [receive_events, header_step_start devc ev hd hv hn]
  refine ⟨?_, hfeed, ?_⟩
  · rw [datafeed_append, hfeed]
    rfl
  · rw [h1]
    show (put_samples (cycle_start hd ev) cs.flatten).num_samples = _
    rw [put_samples_num _ _ (by simp only [cycle_start]; omega)]
    simp [cycle_start]

/-- Witness of C18: 3 of 4 bytes in three streaming read events, one of them empty. -/
theorem no_partial_emission_witness :
    valid_header_event (chunk_event "$FALADATA;2;3;1;Y;1000000;4;1;".toList)
      ⟨2, 3, 1, true, 1000000, 4, 1⟩ ∧
    streaming_run (cycle_start ⟨2, 3, 1, true, 1000000, 4, 1⟩
      (chunk_event "$FALADATA;2;3;1;Y;1000000;4;1;".toList))
      ([bytes [1], [], bytes [2, 3]].map chunk_event) ∧
    datafeed (receive_events (dev_acquisition_start zeroed_context).1
      (chunk_event "$FALADATA;2;3;1;Y;1000000;4;1;".toList ::
        [bytes [1], [], bytes [2, 3]].map chunk_event)).2
      = [effect.frame_begin, effect.meta_samplerate 1000000] :=
  ⟨by decide, by decide,
    (no_partial_emission zeroed_context (chunk_event "$FALADATA;2;3;1;Y;1000000;4;1;".toList)
      ⟨2, 3, 1, true, 1000000, 4, 1⟩ [bytes [1], [], bytes [2, 3]]
      (by decide) (by decide) (by decide) (by decide)).1⟩

/-- C20, the code at the failing input: for a header with `sample_count = 4294967295` the
first two bytes received are stored at the offsets -2 and -3, below the buffer. -/
theorem buffer_write_below_buffer :
    (receive_events (dev_acquisition_start zeroed_context).1
      [chunk_event "$FALADATA;8;0;0;N;1000000;4294967295;0;".toList,
       chunk_event ['a', 'b']]).2.filterMap store_index = [-2, -3] := by
  decide

end Fala
